import Mathlib

/-! # go-metrics-reporter: snapshot-to-point translation

A shallow embedding of `reporter.go`: the reporter configuration, the tag
bucketer `bucketTags`, the per-kind derivation of points inside `send`, the
timestamp alignment, and the hand-over of the batch to the write API.

Conventions of the embedding.

* Go `int64` values and `time.Duration` are `Int`; no arithmetic is done on
  them by the reporter, so no wrap-around is involved.
* Go `float64` is an abstract carrier `F` with the decimal literals of the
  source (`0.5`, `0.75`, ...) and the conversion `float64(x)` of an `int64`.
  No floating-point arithmetic is done by the reporter.
* A Go `map[string]V` is an association list with pairwise distinct keys.
  The order in which `range` visits a map is unspecified in Go; it is a
  parameter (`MapRange`) of every definition that ranges over a map.
* A run-time panic (index out of range) is the result `none`.
-/

namespace Reporter

/-! ## Numeric carriers -/

/-- The operations on Go `float64` that `reporter.go` uses: decimal literals and
the conversion `float64(x)` from `int64`. -/
class Float64 (F : Type) extends OfScientific F where
  /-- The conversion `float64(x)` of an `int64`. -/
  ofInt64 : Int → F

/-- Exact rationals as a carrier for closed examples. -/
instance instFloat64Rat : Float64 ℚ :=
  { toOfScientific := inferInstance, ofInt64 := fun i => (i : ℚ) }

/-- Go `float64(x)` for an `int64` value `x`. -/
def float64 {F : Type} [Float64 F] (x : Int) : F := Float64.ofInt64 x

/-! ## Go maps -/

/-- A Go `map[string]V`: association list with distinct keys. -/
abbrev GoMap (V : Type) := AList (fun _ : String => V)

/-- The visiting order of a `for k, v := range m` loop: some rearrangement of
the entries of the map. -/
structure MapRange where
  /-- The order in which the entries are visited. -/
  order : {α : Type} → List (String × α) → List (String × α)
  /-- Every entry is visited exactly once. -/
  perm : ∀ {α : Type} (l : List (String × α)), (order l).Perm l

/-- Visit the entries in stored order. -/
def MapRange.stored : MapRange := ⟨fun l => l, fun l => List.Perm.refl l⟩

/-- Visit the entries in reverse stored order. -/
def MapRange.reversed : MapRange := ⟨fun l => l.reverse, fun l => List.reverse_perm l⟩

namespace GoMap

/-- The assignment `m[k] = v`. -/
def set {V : Type} (m : GoMap V) (k : String) (v : V) : GoMap V := AList.insert k v m

/-- The lookup `m[k]` with presence flag. -/
def get {V : Type} (m : GoMap V) (k : String) : Option V := AList.lookup k m

/-- The entries of the map as key/value pairs. -/
def pairs {V : Type} (m : GoMap V) : List (String × V) := m.entries.map fun e => (e.1, e.2)

/-- The number of keys, `len(m)`. -/
def len {V : Type} (m : GoMap V) : Nat := m.keys.length

/-- The entries in the order a `range` loop visits them. -/
def range {V : Type} (ρ : MapRange) (m : GoMap V) : List (String × V) := ρ.order m.pairs

/-- A composite literal `map[string]V{k1: v1, k2: v2, ...}`. -/
def lit {V : Type} (kvs : List (String × V)) : GoMap V :=
  kvs.foldl (fun m kv => m.set kv.1 kv.2) ∅

end GoMap

/-! ## Metrics (the part of `go-metrics` that `send` reads) -/

/-- What `send` reads of a `metrics.Histogram` snapshot. -/
structure HistogramSnapshot (F : Type) where
  Count : Int
  Max : Int
  Mean : F
  Min : Int
  StdDev : F
  Variance : F
  Percentiles : List F → List F

/-- What `send` reads of a `metrics.Meter` snapshot. -/
structure MeterSnapshot (F : Type) where
  Count : Int
  Rate1 : F
  Rate5 : F
  Rate15 : F
  RateMean : F

/-- What `send` reads of a `metrics.Timer` snapshot. -/
structure TimerSnapshot (F : Type) where
  Count : Int
  Max : Int
  Mean : F
  Min : Int
  StdDev : F
  Variance : F
  Percentiles : List F → List F
  Rate1 : F
  Rate5 : F
  Rate15 : F
  RateMean : F

/-- A registry entry as the type switch of `send` sees it; each recognised
kind carries what its `Snapshot()` returns. `Other` is any value matching none
of the six cases. -/
inductive Metric (F : Type) where
  | Counter (count : Int)
  | Gauge (value : Int)
  | GaugeFloat64 (value : F)
  | Histogram (ms : HistogramSnapshot F)
  | Meter (ms : MeterSnapshot F)
  | Timer (ms : TimerSnapshot F)
  | Other (typeName : String)

/-! ## Points and the write API -/

/-- A field value, `interface{}` holding an `int64` or a `float64`. -/
inductive FieldValue (F : Type) where
  | int64 (i : Int)
  | float64 (x : F)
deriving DecidableEq

/-- Time as nanoseconds since Go's zero time. -/
abbrev Time := Int

/-- The arguments of `influxdb2.NewPoint`. -/
structure Point (F : Type) where
  measurement : String
  tags : GoMap String
  fields : GoMap (FieldValue F)
  ts : Time
deriving DecidableEq

/-- The call `influxdb2.NewPoint(measurement, tags, fields, ts)`. -/
def NewPoint {F : Type} (measurement : String) (tags : GoMap String)
    (fields : GoMap (FieldValue F)) (ts : Time) : Point F :=
  ⟨measurement, tags, fields, ts⟩

/-- A call made on the write API. -/
inductive SinkCall (F : Type) where
  | WritePoint (p : Point F)
  | Flush
deriving DecidableEq

/-- Modelled from the spec: the write API of the InfluxDB client is not under
src/. Per the Write Sink contract, `WritePoint` enqueues a point without
blocking and `Flush` delivers the queued points and reports success or
failure; a failed batch is dropped. `trace` records the calls, oldest first. -/
structure WriteAPI (F : Type) where
  reachable : Bool
  queue : List (Point F)
  stored : List (Point F)
  trace : List (SinkCall F)

/-- Enqueue one point. -/
def WriteAPI.WritePoint {F : Type} (w : WriteAPI F) (p : Point F) : WriteAPI F :=
  { w with queue := w.queue ++ [p], trace := w.trace ++ [SinkCall.WritePoint p] }

/-- Flush the queue; the flag tells whether the queued points were delivered. -/
def WriteAPI.Flush {F : Type} (w : WriteAPI F) : WriteAPI F × Bool :=
  if w.reachable then
    ({ w with queue := [], stored := w.stored ++ w.queue, trace := w.trace ++ [SinkCall.Flush] },
      true)
  else
    ({ w with queue := [], trace := w.trace ++ [SinkCall.Flush] }, false)

/-- A fresh write API of a store that is reachable or not. -/
def WriteAPI.init (F : Type) (reachable : Bool) : WriteAPI F := ⟨reachable, [], [], []⟩

/-- Modelled from the spec: `time.Time.Truncate` of the Go standard library is
not under src/. It rounds `t` down to a multiple of `d` since the zero time,
and returns `t` unchanged when `d <= 0`. -/
def Truncate (t : Time) (d : Int) : Time :=
  if d ≤ 0 then t else t - t % d

/-! ## The reporter -/

/-- The arguments of `influxdb2.NewClient`. -/
structure Client where
  serverURL : String
  token : String
deriving DecidableEq

/-- The `reporter` struct; `reg` is the content of the registry in the order
`Each` visits it. -/
structure reporter (F : Type) where
  reg : List (String × Metric F)
  align : Bool
  org : String
  bucket : String
  interval : Int
  measurement : String
  tags : GoMap String
  client : Client

/-- Go `error` values returned by `send`. -/
inductive GoError where
  | nil
  | err (msg : String)
deriving DecidableEq

/-- The function `bucketTags`: copy `tags` into a new map and set "bucket". -/
def bucketTags (ρ : MapRange) (bucket : String) (tags : GoMap String) : GoMap String :=
  let m : GoMap String := ∅
  let m := (GoMap.range ρ tags).foldl (fun m kv => m.set kv.1 kv.2) m
  m.set "bucket" bucket

/-- The body of the visitor passed to `Each` in `send`: the points appended to
`pts` for the registry entry `(name, i)`, in the order they are appended;
`none` when an indexed read `ps[k]` is out of range (the visitor panics). -/
def pointsOf {F : Type} [Float64 F] (r : reporter F) (ρ : MapRange) (now : Time)
    (name : String) (i : Metric F) : Option (List (Point F)) :=
  match i with
  | Metric.Counter count =>
    some [NewPoint r.measurement r.tags (GoMap.lit [(name, FieldValue.int64 count)]) now]
  | Metric.Gauge value =>
    some [NewPoint r.measurement r.tags (GoMap.lit [(name, FieldValue.int64 value)]) now]
  | Metric.GaugeFloat64 value =>
    some [NewPoint r.measurement r.tags (GoMap.lit [(name, FieldValue.float64 value)]) now]
  | Metric.Histogram ms =>
    let ps := ms.Percentiles [0.5, 0.75, 0.95, 0.99]
    match ps[0]?, ps[1]?, ps[2]?, ps[3]? with
    | some p50, some p75, some p95, some p99 =>
      let fields : GoMap F := GoMap.lit [
        ("count", float64 ms.Count),
        ("max", float64 ms.Max),
        ("mean", ms.Mean),
        ("min", float64 ms.Min),
        ("stddev", ms.StdDev),
        ("variance", ms.Variance),
        ("p50", p50),
        ("p75", p75),
        ("p95", p95),
        ("p99", p99)]
      some ((GoMap.range ρ fields).map fun kv =>
        NewPoint r.measurement (bucketTags ρ kv.1 r.tags)
          (GoMap.lit [(name, FieldValue.float64 kv.2)]) now)
    | _, _, _, _ => none
  | Metric.Meter ms =>
    let fields : GoMap F := GoMap.lit [
      ("count", float64 ms.Count),
      ("m1", ms.Rate1),
      ("m5", ms.Rate5),
      ("m15", ms.Rate15),
      ("mean", ms.RateMean)]
    some ((GoMap.range ρ fields).map fun kv =>
      NewPoint r.measurement (bucketTags ρ kv.1 r.tags)
        (GoMap.lit [(name, FieldValue.float64 kv.2)]) now)
  | Metric.Timer ms =>
    let ps := ms.Percentiles [0.5, 0.75, 0.95, 0.99]
    match ps[0]?, ps[1]?, ps[2]?, ps[3]? with
    | some p50, some p75, some p95, some p99 =>
      let fields : GoMap F := GoMap.lit [
        ("count", float64 ms.Count),
        ("max", float64 ms.Max),
        ("mean", ms.Mean),
        ("min", float64 ms.Min),
        ("stddev", ms.StdDev),
        ("variance", ms.Variance),
        ("p50", p50),
        ("p75", p75),
        ("p95", p95),
        ("p99", p99),
        ("m1", ms.Rate1),
        ("m5", ms.Rate5),
        ("m15", ms.Rate15),
        ("meanrate", ms.RateMean)]
      some ((GoMap.range ρ fields).map fun kv =>
        NewPoint r.measurement (bucketTags ρ kv.1 r.tags)
          (GoMap.lit [(name, FieldValue.float64 kv.2)]) now)
    | _, _, _, _ => none
  | Metric.Other _ => some []

/-- The loop `r.reg.Each(...)` of `send`: visit the entries in order, appending
the points of each to `pts`; `none` when a visit panics. -/
def collect {F : Type} [Float64 F] (r : reporter F) (ρ : MapRange) (now : Time) :
    List (String × Metric F) → List (Point F) → Option (List (Point F))
  | [], pts => some pts
  | (name, i) :: rest, pts =>
    match pointsOf r ρ now name i with
    | none => none
    | some ps => collect r ρ now rest (pts ++ ps)

/-- The method `write`: enqueue every point, then flush; the outcome of the
flush is not looked at. -/
def reporter.write {F : Type} (_r : reporter F) (pts : List (Point F)) (writeAPI : WriteAPI F) :
    WriteAPI F :=
  let writeAPI := pts.foldl (fun w p => w.WritePoint p) writeAPI
  (writeAPI.Flush).1

/-- The timestamp of a cycle: `time.Now()`, truncated to the interval when
`align` is set. -/
def reporter.now {F : Type} (r : reporter F) (clock : Time) : Time :=
  if r.align then Truncate clock r.interval else clock

/-- The batch `pts` that `send` builds, `none` when the visitor panics. -/
def reporter.batch {F : Type} [Float64 F] (r : reporter F) (ρ : MapRange) (clock : Time) :
    Option (List (Point F)) :=
  collect r ρ (r.now clock) r.reg []

/-- The method `send`, run when `time.Now()` is `clock` on the write API state
`w`: the returned `error` and the new state of the write API; `none` when the
visitor panics. -/
def reporter.send {F : Type} [Float64 F] (r : reporter F) (ρ : MapRange) (clock : Time)
    (w : WriteAPI F) : Option (GoError × WriteAPI F) :=
  match r.batch ρ clock with
  | none => none
  | some pts => some (GoError.nil, r.write pts w)

/-- The constructor `NewWithTags`. -/
def NewWithTags {F : Type} (r : List (String × Metric F)) (serverURL token org bucket : String)
    (measurement : String) (interval : Int) (tags : GoMap String) (align : Bool) : reporter F :=
  { reg := r, interval := interval, align := align, bucket := bucket,
    measurement := measurement, org := org, tags := tags, client := ⟨serverURL, token⟩ }

/-- The constructor `New`. -/
def New {F : Type} (r : List (String × Metric F)) (serverURL token org bucket : String)
    (interval : Int) : reporter F :=
  NewWithTags r serverURL token org bucket "reporter" interval ∅ true

/-! ## `bucketTags` on a heap of maps

Go maps are references. To state that `bucketTags` leaves its argument alone,
the same function is run on a heap of maps, an address being an index. -/

/-- A heap of `map[string]string` values. -/
abbrev MapHeap := List (GoMap String)

namespace MapHeap

/-- The map stored at an address (a nil or dangling reference reads as empty). -/
def load (h : MapHeap) (ref : Nat) : GoMap String := h.getD ref ∅

/-- The allocation `map[string]string{}`: the new heap and the new address. -/
def alloc (h : MapHeap) : MapHeap × Nat := (h ++ [∅], h.length)

/-- The assignment `m[k] = v` through the reference `m`. -/
def store (h : MapHeap) (m : Nat) (k v : String) : MapHeap :=
  h.modify (fun x => x.set k v) m

end MapHeap

/-- The function `bucketTags` on the heap: `tags` is the address of the argument,
the result is the address of the returned map and the heap after the call. -/
def bucketTagsRef (ρ : MapRange) (bucket : String) (tags : Nat) (h : MapHeap) : Nat × MapHeap :=
  let (h, m) := h.alloc
  let h := (GoMap.range ρ (h.load tags)).foldl (fun h kv => h.store m kv.1 kv.2) h
  let h := h.store m "bucket" bucket
  (m, h)

/-- The precondition on an entry under which the visitor's indexed reads
`ps[0]` .. `ps[3]` are in range: a Histogram or Timer snapshot returns at least
four percentile values for the four quantiles asked. -/
def Metric.percentilesOk {F : Type} [Float64 F] : Metric F → Bool
  | Metric.Histogram ms => decide (4 ≤ (ms.Percentiles [0.5, 0.75, 0.95, 0.99]).length)
  | Metric.Timer ms => decide (4 ≤ (ms.Percentiles [0.5, 0.75, 0.95, 0.99]).length)
  | _ => true

/-! ## Closed examples -/

namespace Example

/-- Base tags `{env: "prod"}`. -/
def envProd : GoMap String := GoMap.lit [("env", "prod")]

/-- Base tags that already have a "bucket" key. -/
def envBucket : GoMap String := GoMap.lit [("env", "prod"), ("bucket", "b0")]

/-- A histogram snapshot. -/
def histogram : HistogramSnapshot ℚ :=
  { Count := 3, Max := 9, Mean := 5, Min := 1, StdDev := 2, Variance := 4,
    Percentiles := fun _ => [10, 20, 30, 40] }

/-- A meter snapshot. -/
def meter : MeterSnapshot ℚ :=
  { Count := 7, Rate1 := 1, Rate5 := 2, Rate15 := 3, RateMean := 4 }

/-- A timer snapshot. -/
def timer : TimerSnapshot ℚ :=
  { Count := 3, Max := 9, Mean := 5, Min := 1, StdDev := 2, Variance := 4,
    Percentiles := fun _ => [10, 20, 30, 40],
    Rate1 := 11, Rate5 := 12, Rate15 := 13, RateMean := 14 }

/-- A registry with the single counter "requests" at 42. -/
def requestsRegistry : List (String × Metric ℚ) := [("requests", Metric.Counter 42)]

/-- A registry with one entry of each kind, an unrecognised one included. -/
def mixedRegistry : List (String × Metric ℚ) :=
  [("requests", Metric.Counter 42), ("load", Metric.Gauge 5), ("ratio", Metric.GaugeFloat64 7),
   ("latency", Metric.Histogram histogram), ("health", Metric.Other "Healthcheck"),
   ("hits", Metric.Meter meter), ("rpc", Metric.Timer timer)]

/-- Ten seconds, in nanoseconds. -/
def tenSeconds : Int := 10000000000

/-- The time of day 12:00:07.345, in nanoseconds since midnight. -/
def noonSevenSeconds : Time := 43207345000000

/-- A reporter over a registry, 10 s interval, base tags `{env: "prod"}`. -/
def reporterOf (reg : List (String × Metric ℚ)) (align : Bool) : reporter ℚ :=
  NewWithTags reg "http://localhost:8086" "token" "org" "metrics" "reporter" tenSeconds envProd
    align

end Example


/-! ## What a trace of the write API says -/

/-- Whether a call is a `Flush`. -/
def SinkCall.isFlush {F : Type} : SinkCall F → Bool
  | SinkCall.Flush => true
  | SinkCall.WritePoint _ => false

/-- The point a call enqueues, if any. -/
def SinkCall.point? {F : Type} : SinkCall F → Option (Point F)
  | SinkCall.Flush => none
  | SinkCall.WritePoint p => some p

/-- The number of `Flush` calls made so far. -/
def WriteAPI.flushes {F : Type} (w : WriteAPI F) : Nat := w.trace.countP SinkCall.isFlush

/-- The points enqueued so far, oldest first. -/
def WriteAPI.enqueued {F : Type} (w : WriteAPI F) : List (Point F) :=
  w.trace.filterMap SinkCall.point?

/-! ## The loop of `Run` -/

/-- Where the control of `Run` is: blocked on the ticker, returned to its
caller, or ended by a panic of the visitor. -/
inductive RunControl where
  | waiting
  | returned
  | panicked
deriving DecidableEq

/-- The state of `Run`: control, the lines logged so far, the write API. -/
structure RunState (F : Type) where
  ctl : RunControl
  log : List String
  api : WriteAPI F

/-- What a tick finds: the clock, the content of the registry in the order
`Each` visits it, and the order of the range loops of the cycle. -/
structure Tick (F : Type) where
  clock : Time
  reg : List (String × Metric F)
  order : MapRange

/-- The state in which `Run` starts to wait for the first tick. -/
def RunState.init {F : Type} (w : WriteAPI F) : RunState F := ⟨RunControl.waiting, [], w⟩

/-- The statement `if err := r.send(); err != nil { log.Printf(...) }` once
`send` has returned: log one line when the error is not nil, then go back to
the `select`. -/
def RunState.observe {F : Type} (s : RunState F) (res : GoError × WriteAPI F) : RunState F :=
  match res.1 with
  | GoError.nil => { ctl := RunControl.waiting, log := s.log, api := res.2 }
  | GoError.err msg =>
    { ctl := RunControl.waiting,
      log := s.log ++ ["unable to send metrics to InfluxDB. err=" ++ msg],
      api := res.2 }

/-- One iteration of the loop of `Run`, taken when a tick arrives. -/
def reporter.RunStep {F : Type} [Float64 F] (r : reporter F) (s : RunState F) (t : Tick F) :
    RunState F :=
  match s.ctl with
  | RunControl.waiting =>
    match ({ r with reg := t.reg }).send t.order t.clock s.api with
    | none => { s with ctl := RunControl.panicked }
    | some res => s.observe res
  | _ => s

/-- The method `Run` over the ticks that arrive. -/
def reporter.Run {F : Type} [Float64 F] (r : reporter F) (ticks : List (Tick F))
    (s : RunState F) : RunState F :=
  ticks.foldl r.RunStep s

/-! ## The point counts of the spec -/

/-- The number of points per kind in the table of the spec: 1 for Counter,
Gauge and GaugeFloat64, 10 for Histogram, 5 for Meter, 14 for Timer, 0 for any
other kind. -/
def Metric.pointCount {F : Type} : Metric F → Nat
  | Metric.Counter _ => 1
  | Metric.Gauge _ => 1
  | Metric.GaugeFloat64 _ => 1
  | Metric.Histogram _ => 10
  | Metric.Meter _ => 5
  | Metric.Timer _ => 14
  | Metric.Other _ => 0

/-- Counter, Gauge or GaugeFloat64. -/
def Metric.isPlain {F : Type} : Metric F → Bool
  | Metric.Counter _ => true
  | Metric.Gauge _ => true
  | Metric.GaugeFloat64 _ => true
  | _ => false

/-- Histogram. -/
def Metric.isHistogram {F : Type} : Metric F → Bool
  | Metric.Histogram _ => true
  | _ => false

/-- Meter. -/
def Metric.isMeter {F : Type} : Metric F → Bool
  | Metric.Meter _ => true
  | _ => false

/-- Timer. -/
def Metric.isTimer {F : Type} : Metric F → Bool
  | Metric.Timer _ => true
  | _ => false

/-- None of the six recognised kinds. -/
def Metric.isOther {F : Type} : Metric F → Bool
  | Metric.Other _ => true
  | _ => false

/-- The name of the only field of a point, when it has exactly one. -/
def Point.fieldNames {F : Type} (p : Point F) : List String := p.fields.pairs.map Prod.fst

namespace Example

/-- A histogram snapshot whose provider returns three percentile values for
four quantiles. -/
def shortHistogram : HistogramSnapshot ℚ :=
  { Count := 3, Max := 9, Mean := 5, Min := 1, StdDev := 2, Variance := 4,
    Percentiles := fun qs => qs.take 3 }

/-- A timer snapshot whose provider returns no percentile value. -/
def shortTimer : TimerSnapshot ℚ :=
  { Count := 3, Max := 9, Mean := 5, Min := 1, StdDev := 2, Variance := 4,
    Percentiles := fun _ => [],
    Rate1 := 11, Rate5 := 12, Rate15 := 13, RateMean := 14 }

/-- A histogram snapshot whose provider returns one value per quantile. -/
def echoHistogram : HistogramSnapshot ℚ :=
  { Count := 3, Max := 9, Mean := 5, Min := 1, StdDev := 2, Variance := 4,
    Percentiles := fun qs => qs.map fun _ => 7 }

/-- A timer snapshot whose provider returns one value per quantile. -/
def echoTimer : TimerSnapshot ℚ :=
  { Count := 3, Max := 9, Mean := 5, Min := 1, StdDev := 2, Variance := 4,
    Percentiles := fun qs => qs.map fun _ => 7,
    Rate1 := 11, Rate5 := 12, Rate15 := 13, RateMean := 14 }

/-- Two ticks on the example registry, ten seconds apart. -/
def twoTicks : List (Tick ℚ) :=
  [⟨noonSevenSeconds, mixedRegistry, MapRange.stored⟩,
   ⟨noonSevenSeconds + tenSeconds, mixedRegistry, MapRange.reversed⟩]

end Example

/-! ## Lemmas on Go maps -/

theorem GoMap.range_perm {V : Type} (ρ : MapRange) (m : GoMap V) :
    (GoMap.range ρ m).Perm m.pairs := ρ.perm m.pairs

theorem GoMap.mem_pairs_iff {V : Type} (m : GoMap V) (k : String) (v : V) :
    (k, v) ∈ m.pairs ↔ m.get k = some v := by
  unfold GoMap.pairs GoMap.get
  rw [← Option.mem_def, AList.mem_lookup_iff, List.mem_map]
  constructor
  · rintro ⟨⟨a, b⟩, he, hab⟩
    cases hab
    exact he
  · intro he
    exact ⟨⟨k, v⟩, he, rfl⟩

theorem GoMap.pairs_keys {V : Type} (m : GoMap V) : m.pairs.map Prod.fst = m.keys := by
  unfold GoMap.pairs AList.keys List.keys
  rw [List.map_map]
  rfl

theorem GoMap.get_set_self {V : Type} (m : GoMap V) (k : String) (v : V) :
    (m.set k v).get k = some v := AList.lookup_insert m

theorem GoMap.get_set_ne {V : Type} (m : GoMap V) {k k' : String} (v : V) (h : k ≠ k') :
    (m.set k' v).get k = m.get k := AList.lookup_insert_ne h

/-- Assigning a list of entries whose keys do not contain `k` leaves `m[k]` alone. -/
theorem GoMap.get_foldl_set_of_not_mem {V : Type} (l : List (String × V)) (k : String) :
    ∀ acc : GoMap V, k ∉ l.map Prod.fst →
      (l.foldl (fun m kv => m.set kv.1 kv.2) acc).get k = acc.get k := by
  induction l with
  | nil => intro acc _; rfl
  | cons e l ih =>
    intro acc hk
    rw [List.map_cons, List.mem_cons, not_or] at hk
    rw [List.foldl_cons, ih _ hk.2, GoMap.get_set_ne _ _ hk.1]

/-- Assigning a list of entries with distinct keys makes `m[k] = v` for each
entry `(k, v)` of the list. -/
theorem GoMap.get_foldl_set_of_mem {V : Type} (l : List (String × V)) (k : String) (v : V) :
    ∀ acc : GoMap V, (l.map Prod.fst).Nodup → (k, v) ∈ l →
      (l.foldl (fun m kv => m.set kv.1 kv.2) acc).get k = some v := by
  induction l with
  | nil => intro acc _ h; cases h
  | cons e l ih =>
    intro acc hnd hmem
    rw [List.map_cons, List.nodup_cons] at hnd
    rw [List.foldl_cons]
    rcases List.mem_cons.1 hmem with he | hl
    · subst he
      rw [GoMap.get_foldl_set_of_not_mem l k _ hnd.1, GoMap.get_set_self]
    · exact ih _ hnd.2 hl

/-- With distinct keys, a composite literal stores its entries, last first. -/
theorem GoMap.pairs_foldl_set {V : Type} (l : List (String × V)) :
    ∀ acc : GoMap V, (l.map Prod.fst).Nodup → (∀ k ∈ l.map Prod.fst, k ∉ acc.keys) →
      (l.foldl (fun m kv => m.set kv.1 kv.2) acc).pairs = l.reverse ++ acc.pairs := by
  induction l with
  | nil => intro acc _ _; rfl
  | cons e l ih =>
    intro acc hnd hdis
    rw [List.map_cons, List.nodup_cons] at hnd
    have hnew : e.1 ∉ acc := by
      rw [AList.mem_keys]
      exact hdis e.1 (by simp)
    have hset : (acc.set e.1 e.2).pairs = e :: acc.pairs := by
      unfold GoMap.set GoMap.pairs
      rw [AList.insert_entries_of_neg hnew]
      rfl
    rw [List.foldl_cons, ih (acc.set e.1 e.2) hnd.2, hset]
    · simp
    · intro k hk hin
      have hin2 : k ∈ acc.set e.1 e.2 := AList.mem_keys.2 hin
      unfold GoMap.set at hin2
      rw [AList.mem_insert] at hin2
      rcases hin2 with h1 | h2
      · exact hnd.1 (h1 ▸ hk)
      · exact hdis k (by simp [List.mem_map] at hk ⊢; exact Or.inr hk) (AList.mem_keys.1 h2)

theorem GoMap.lit_pairs {V : Type} (l : List (String × V)) (hnd : (l.map Prod.fst).Nodup) :
    (GoMap.lit l).pairs = l.reverse := by
  unfold GoMap.lit
  rw [GoMap.pairs_foldl_set l ∅ hnd (fun k _ h => by simp at h)]
  simp [GoMap.pairs]

theorem GoMap.range_lit_perm {V : Type} (ρ : MapRange) (l : List (String × V))
    (hnd : (l.map Prod.fst).Nodup) : (GoMap.range ρ (GoMap.lit l)).Perm l := by
  have h := GoMap.range_perm ρ (GoMap.lit l)
  rw [GoMap.lit_pairs l hnd] at h
  exact h.trans (List.reverse_perm l)

theorem GoMap.lit_singleton_pairs {V : Type} (k : String) (v : V) :
    (GoMap.lit [(k, v)]).pairs = [(k, v)] := rfl

/-- Copying a map entry by entry, in any visiting order, gives a map with the
same lookups. -/
theorem GoMap.get_copy {V : Type} (ρ : MapRange) (m : GoMap V) (k : String) :
    ((GoMap.range ρ m).foldl (fun c kv => c.set kv.1 kv.2) (∅ : GoMap V)).get k = m.get k := by
  have hp := GoMap.range_perm ρ m
  have hnd : ((GoMap.range ρ m).map Prod.fst).Nodup := by
    have := (hp.map Prod.fst).nodup_iff.2 (by rw [GoMap.pairs_keys]; exact m.keys_nodup)
    exact this
  cases hv : m.get k with
  | none =>
    rw [GoMap.get_foldl_set_of_not_mem _ k ∅]
    · rfl
    · intro hk
      have hk2 : k ∈ m.pairs.map Prod.fst := (hp.map Prod.fst).mem_iff.1 hk
      rw [GoMap.pairs_keys] at hk2
      have : m.get k ≠ none := by
        unfold GoMap.get
        rw [Ne, AList.lookup_eq_none, not_not]
        exact AList.mem_keys.2 hk2
      exact this hv
  | some v =>
    exact GoMap.get_foldl_set_of_mem _ k v ∅ hnd (hp.mem_iff.2 ((GoMap.mem_pairs_iff m k v).2 hv))

theorem bucketTags_get_bucket (ρ : MapRange) (bucket : String) (tags : GoMap String) :
    (bucketTags ρ bucket tags).get "bucket" = some bucket := by
  unfold bucketTags
  exact GoMap.get_set_self _ _ _

theorem bucketTags_get_ne (ρ : MapRange) (bucket : String) (tags : GoMap String) (k : String)
    (hk : k ≠ "bucket") : (bucketTags ρ bucket tags).get k = tags.get k := by
  unfold bucketTags
  simp only []
  rw [GoMap.get_set_ne _ _ hk, GoMap.get_copy]

/-- Maps with the same lookups have the same number of keys. -/
theorem GoMap.len_eq_of_get_eq {V : Type} (m₁ m₂ : GoMap V) (h : ∀ k, m₁.get k = m₂.get k) :
    m₁.len = m₂.len := by
  have hp : m₁.entries.Perm m₂.entries :=
    List.lookup_ext m₁.nodupKeys m₂.nodupKeys (fun x y => by
      have := h x
      unfold GoMap.get AList.lookup at this
      rw [this])
  unfold GoMap.len AList.keys List.keys
  exact (hp.map Sigma.fst).length_eq

theorem bucketTags_len (ρ : MapRange) (bucket : String) (tags : GoMap String) :
    (bucketTags ρ bucket tags).len =
      if tags.get "bucket" = none then tags.len + 1 else tags.len := by
  have hkeys : ∀ c : GoMap String, (c.set "bucket" bucket).len =
      (c.keys.erase "bucket").length + 1 := by
    intro c
    unfold GoMap.len GoMap.set
    rw [AList.keys_insert, List.length_cons]
  have hmem : ∀ c : GoMap String, "bucket" ∈ c.keys ↔ c.get "bucket" ≠ none := by
    intro c
    unfold GoMap.get
    rw [Ne, AList.lookup_eq_none, not_not, AList.mem_keys]
  unfold bucketTags
  simp only []
  generalize hc : (GoMap.range ρ tags).foldl (fun m kv => m.set kv.1 kv.2) (∅ : GoMap String) = c
  have hcopy : ∀ k, c.get k = tags.get k := fun k => hc ▸ GoMap.get_copy ρ tags k
  have hlen : c.len = tags.len := GoMap.len_eq_of_get_eq _ _ hcopy
  rw [hkeys c]
  split
  · rename_i hnone
    rw [List.erase_of_not_mem, ← hlen]
    · rfl
    · rw [hmem, hcopy]
      exact fun h => h hnone
  · rename_i hsome
    have hin : "bucket" ∈ c.keys := by
      rw [hmem, hcopy]
      exact hsome
    have hpos := List.length_pos_of_mem hin
    rw [List.length_erase_of_mem hin, ← hlen]
    unfold GoMap.len
    omega

/-! ## Lemmas on the heap of maps -/

theorem MapHeap.load_append_left (h x : MapHeap) (a : Nat) (ha : a < h.length) :
    MapHeap.load (h ++ x) a = MapHeap.load h a := by
  unfold MapHeap.load
  rw [List.getD_eq_getElem?_getD, List.getD_eq_getElem?_getD, List.getElem?_append_left ha]

theorem MapHeap.load_append_length (h : MapHeap) (x : GoMap String) :
    MapHeap.load (h ++ [x]) h.length = x := by
  unfold MapHeap.load
  rw [List.getD_eq_getElem?_getD, List.getElem?_append_right (Nat.le_refl _)]
  simp

theorem MapHeap.store_append_length (h : MapHeap) (x : GoMap String) (k v : String) :
    MapHeap.store (h ++ [x]) h.length k v = h ++ [x.set k v] := by
  unfold MapHeap.store
  induction h with
  | nil => rfl
  | cons a h ih => simp only [List.cons_append, List.length_cons, List.modify_succ_cons, ih]

theorem MapHeap.foldl_store_append_length (h : MapHeap) (l : List (String × String)) :
    ∀ acc : GoMap String,
      l.foldl (fun h' kv => MapHeap.store h' h.length kv.1 kv.2) (h ++ [acc]) =
        h ++ [l.foldl (fun m kv => m.set kv.1 kv.2) acc] := by
  induction l with
  | nil => intro acc; rfl
  | cons e l ih =>
    intro acc
    rw [List.foldl_cons, List.foldl_cons, MapHeap.store_append_length, ih]

/-- On a heap where `tags` is allocated, `bucketTagsRef` allocates one map at the
end of the heap, holding what `bucketTags` returns, and changes nothing else. -/
theorem bucketTagsRef_eq (ρ : MapRange) (bucket : String) (tags : Nat) (h : MapHeap)
    (ht : tags < h.length) :
    bucketTagsRef ρ bucket tags h = (h.length, h ++ [bucketTags ρ bucket (h.load tags)]) := by
  unfold bucketTagsRef MapHeap.alloc bucketTags
  simp only []
  rw [MapHeap.load_append_left h _ tags ht, MapHeap.foldl_store_append_length,
    MapHeap.store_append_length]

/-! ## Lemmas on `pointsOf` and `collect` -/

/-- Every point derived for an entry carries the reporter's measurement, the
cycle's timestamp, and a field mapping with the entry's name as only key. -/
theorem pointsOf_mem {F : Type} [Float64 F] (r : reporter F) (ρ : MapRange) (now : Time)
    (name : String) (i : Metric F) (ps : List (Point F))
    (h : pointsOf r ρ now name i = some ps) (p : Point F) (hp : p ∈ ps) :
    p.measurement = r.measurement ∧ p.ts = now ∧
      ∃ v, p.fields = GoMap.lit [(name, v)] := by
  cases i with
  | Counter c =>
    simp only [pointsOf, Option.some.injEq] at h
    subst h
    rw [List.mem_singleton] at hp
    subst hp
    exact ⟨rfl, rfl, _, rfl⟩
  | Gauge c =>
    simp only [pointsOf, Option.some.injEq] at h
    subst h
    rw [List.mem_singleton] at hp
    subst hp
    exact ⟨rfl, rfl, _, rfl⟩
  | GaugeFloat64 c =>
    simp only [pointsOf, Option.some.injEq] at h
    subst h
    rw [List.mem_singleton] at hp
    subst hp
    exact ⟨rfl, rfl, _, rfl⟩
  | Histogram ms =>
    simp only [pointsOf] at h
    split at h
    · simp only [Option.some.injEq] at h
      subst h
      obtain ⟨kv, _, rfl⟩ := List.mem_map.1 hp
      exact ⟨rfl, rfl, _, rfl⟩
    · cases h
  | Meter ms =>
    simp only [pointsOf, Option.some.injEq] at h
    subst h
    obtain ⟨kv, _, rfl⟩ := List.mem_map.1 hp
    exact ⟨rfl, rfl, _, rfl⟩
  | Timer ms =>
    simp only [pointsOf] at h
    split at h
    · simp only [Option.some.injEq] at h
      subst h
      obtain ⟨kv, _, rfl⟩ := List.mem_map.1 hp
      exact ⟨rfl, rfl, _, rfl⟩
    · cases h
  | Other t =>
    simp only [pointsOf, Option.some.injEq] at h
    subst h
    cases hp

/-- The points derived for an entry depend on the reporter through its
measurement and base tags only. -/
theorem pointsOf_congr {F : Type} [Float64 F] (r r' : reporter F) (ρ : MapRange) (now : Time)
    (name : String) (i : Metric F) (hm : r'.measurement = r.measurement)
    (ht : r'.tags = r.tags) : pointsOf r' ρ now name i = pointsOf r ρ now name i := by
  cases i <;> simp only [pointsOf, hm, ht]

theorem collect_congr {F : Type} [Float64 F] (r r' : reporter F) (ρ : MapRange) (now : Time)
    (hm : r'.measurement = r.measurement) (ht : r'.tags = r.tags)
    (reg : List (String × Metric F)) :
    ∀ pts, collect r' ρ now reg pts = collect r ρ now reg pts := by
  induction reg with
  | nil => intro pts; rfl
  | cons e reg ih =>
    intro pts
    obtain ⟨name, i⟩ := e
    simp only [collect, pointsOf_congr r r' ρ now name i hm ht, ih]

/-- A property of the points already collected that every derived point has is
a property of the whole batch. -/
theorem collect_forall {F : Type} [Float64 F] (r : reporter F) (ρ : MapRange) (now : Time)
    (P : Point F → Prop) (reg : List (String × Metric F))
    (hP : ∀ e ∈ reg, ∀ ps, pointsOf r ρ now e.1 e.2 = some ps → ∀ p ∈ ps, P p) :
    ∀ acc pts, (∀ p ∈ acc, P p) → collect r ρ now reg acc = some pts → ∀ p ∈ pts, P p := by
  induction reg with
  | nil =>
    intro acc pts hacc h
    simp only [collect, Option.some.injEq] at h
    subst h
    exact hacc
  | cons e reg ih =>
    intro acc pts hacc h
    obtain ⟨name, i⟩ := e
    simp only [collect] at h
    split at h
    · cases h
    · rename_i ps hps
      refine ih (fun e' he' => hP e' (List.mem_cons_of_mem _ he')) (acc ++ ps) pts ?_ h
      intro p hp
      rcases List.mem_append.1 hp with h1 | h2
      · exact hacc p h1
      · exact hP (name, i) (List.mem_cons_self _ _) ps hps p h2

theorem pointsOf_isSome {F : Type} [Float64 F] (r : reporter F) (ρ : MapRange) (now : Time)
    (name : String) (i : Metric F) (hok : i.percentilesOk = true) :
    (pointsOf r ρ now name i).isSome = true := by
  cases i with
  | Histogram ms =>
    simp only [Metric.percentilesOk, decide_eq_true_eq] at hok
    generalize hps : ms.Percentiles [0.5, 0.75, 0.95, 0.99] = ps at hok
    match ps, hok with
    | a :: b :: c :: d :: rest, _ => simp [pointsOf, hps]
  | Timer ms =>
    simp only [Metric.percentilesOk, decide_eq_true_eq] at hok
    generalize hps : ms.Percentiles [0.5, 0.75, 0.95, 0.99] = ps at hok
    match ps, hok with
    | a :: b :: c :: d :: rest, _ => simp [pointsOf, hps]
  | _ => simp [pointsOf]

theorem collect_isSome {F : Type} [Float64 F] (r : reporter F) (ρ : MapRange) (now : Time)
    (reg : List (String × Metric F)) (hok : ∀ e ∈ reg, e.2.percentilesOk = true) :
    ∀ pts, (collect r ρ now reg pts).isSome = true := by
  induction reg with
  | nil => intro pts; rfl
  | cons e reg ih =>
    intro pts
    obtain ⟨name, i⟩ := e
    have h1 := pointsOf_isSome r ρ now name i (hok (name, i) (List.mem_cons_self _ _))
    obtain ⟨ps, hps⟩ := Option.isSome_iff_exists.1 h1
    simp only [collect, hps]
    exact ih (fun e he => hok e (List.mem_cons_of_mem _ he)) _

/-- An unrecognised entry contributes nothing to the batch. -/
theorem collect_skip_other {F : Type} [Float64 F] (r : reporter F) (ρ : MapRange) (now : Time)
    (n t : String) (pre post : List (String × Metric F)) :
    ∀ pts, collect r ρ now (pre ++ (n, Metric.Other t) :: post) pts =
      collect r ρ now (pre ++ post) pts := by
  induction pre with
  | nil => intro pts; simp [collect, pointsOf]
  | cons e pre ih =>
    intro pts
    obtain ⟨name, i⟩ := e
    simp only [List.cons_append, collect]
    cases pointsOf r ρ now name i with
    | none => rfl
    | some ps => exact ih _

/-! ## The claims -/

/-- C1: for a Counter, an integer Gauge or a GaugeFloat64 named `n` with snapshot
value `v`, the visitor of `send` derives exactly one point: measurement the
reporter's, tag set the base tag set itself (so no "bucket" key is added), field
mapping exactly `{n: v}`, timestamp the cycle's `now`; that point is what `send`
appends to the batch. For the counter "requests" at 42 with base tags
`{env: "prod"}` and measurement "reporter" the batch is the single point
(reporter, {env: prod}, {requests: 42}). -/
theorem send_plain_metric_single_point {F : Type} [Float64 F] (r : reporter F) (ρ : MapRange)
    (now : Time) (n : String) :
    (∀ v : Int, pointsOf r ρ now n (Metric.Counter v) =
        some [NewPoint r.measurement r.tags (GoMap.lit [(n, FieldValue.int64 v)]) now]) ∧
    (∀ v : Int, pointsOf r ρ now n (Metric.Gauge v) =
        some [NewPoint r.measurement r.tags (GoMap.lit [(n, FieldValue.int64 v)]) now]) ∧
    (∀ v : F, pointsOf r ρ now n (Metric.GaugeFloat64 v) =
        some [NewPoint r.measurement r.tags (GoMap.lit [(n, FieldValue.float64 v)]) now]) ∧
    (∀ v : FieldValue F,
      (NewPoint r.measurement r.tags (GoMap.lit [(n, v)]) now).measurement = r.measurement ∧
      (NewPoint r.measurement r.tags (GoMap.lit [(n, v)]) now).tags = r.tags ∧
      (NewPoint r.measurement r.tags (GoMap.lit [(n, v)]) now).fields.pairs = [(n, v)] ∧
      (NewPoint r.measurement r.tags (GoMap.lit [(n, v)]) now).ts = now) ∧
    (∀ (i : Metric F) (p : Point F) (rest : List (String × Metric F)) (pts : List (Point F)),
      pointsOf r ρ now n i = some [p] →
        collect r ρ now ((n, i) :: rest) pts = collect r ρ now rest (pts ++ [p])) ∧
    (∀ (align : Bool) (clock : Time),
      (Example.reporterOf Example.requestsRegistry align).batch ρ clock =
        some [NewPoint "reporter" Example.envProd
          (GoMap.lit [("requests", FieldValue.int64 42)])
          ((Example.reporterOf Example.requestsRegistry align).now clock)] ∧
      Example.envProd.pairs = [("env", "prod")]) := by
  refine ⟨fun _ => rfl, fun _ => rfl, fun _ => rfl, fun _ => ⟨rfl, rfl, rfl, rfl⟩, ?_, ?_⟩
  · intro i p rest pts h
    simp only [collect, h]
  · intro align clock
    exact ⟨rfl, rfl⟩

/-- C2: for a Histogram named `n` whose snapshot returns `p50, p75, p95, p99` as
elements 0..3 of `Percentiles([0.5, 0.75, 0.95, 0.99])`, the visitor of `send`
derives exactly 10 points, one per label count, max, mean, min, stddev,
variance, p50, p75, p95, p99 (in the order the range loop takes), the point of
label `s` having tag set `bucketTags(s, T)`, which is `T` plus bucket = `s`, and
field mapping exactly `{n: value of s}`. -/
theorem send_histogram_points {F : Type} [Float64 F] (r : reporter F) (ρ : MapRange)
    (now : Time) (n : String) (ms : HistogramSnapshot F) (p50 p75 p95 p99 : F) (more : List F)
    (hps : ms.Percentiles [0.5, 0.75, 0.95, 0.99] = p50 :: p75 :: p95 :: p99 :: more) :
    ∃ pts, pointsOf r ρ now n (Metric.Histogram ms) = some pts ∧ pts.length = 10 ∧
      pts.Perm
        ([("count", float64 ms.Count), ("max", float64 ms.Max), ("mean", ms.Mean),
          ("min", float64 ms.Min), ("stddev", ms.StdDev), ("variance", ms.Variance),
          ("p50", p50), ("p75", p75), ("p95", p95), ("p99", p99)].map fun sv =>
            NewPoint r.measurement (bucketTags ρ sv.1 r.tags)
              (GoMap.lit [(n, FieldValue.float64 sv.2)]) now) ∧
      (∀ (s : String) (v : F),
        (GoMap.lit [(n, FieldValue.float64 v)]).pairs = [(n, FieldValue.float64 v)] ∧
        (bucketTags ρ s r.tags).get "bucket" = some s ∧
        ∀ k, k ≠ "bucket" → (bucketTags ρ s r.tags).get k = r.tags.get k) := by
  have hperm := GoMap.range_lit_perm ρ
    [("count", (float64 ms.Count : F)), ("max", float64 ms.Max), ("mean", ms.Mean),
      ("min", float64 ms.Min), ("stddev", ms.StdDev), ("variance", ms.Variance),
      ("p50", p50), ("p75", p75), ("p95", p95), ("p99", p99)]
    (by simp only [List.map_cons, List.map_nil]; decide)
  have hpm := hperm.map (fun sv : String × F =>
    NewPoint r.measurement (bucketTags ρ sv.1 r.tags)
      (GoMap.lit [(n, FieldValue.float64 sv.2)]) now)
  refine ⟨_, ?_, ?_, hpm, ?_⟩
  · simp only [pointsOf, hps, List.getElem?_cons_zero, List.getElem?_cons_succ]
  · rw [hpm.length_eq]
    rfl
  · intro s v
    exact ⟨rfl, bucketTags_get_bucket ρ s r.tags, fun k hk => bucketTags_get_ne ρ s r.tags k hk⟩

/-- Witness of C2: the example histogram under base tags `{env: "prod"}`. -/
theorem send_histogram_points_witness :
    Example.histogram.Percentiles [0.5, 0.75, 0.95, 0.99] = [10, 20, 30, 40] ∧
    ∃ pts, pointsOf (Example.reporterOf [] true) MapRange.stored 0 "latency"
        (Metric.Histogram Example.histogram) = some pts ∧ pts.length = 10 ∧
      pts.Perm
        ([("count", float64 3), ("max", float64 9), ("mean", (5 : ℚ)),
          ("min", float64 1), ("stddev", 2), ("variance", 4),
          ("p50", 10), ("p75", 20), ("p95", 30), ("p99", 40)].map fun sv =>
            NewPoint "reporter" (bucketTags MapRange.stored sv.1 Example.envProd)
              (GoMap.lit [("latency", FieldValue.float64 sv.2)]) 0) ∧
      (∀ (s : String) (v : ℚ),
        (GoMap.lit [("latency", FieldValue.float64 v)]).pairs =
          [("latency", FieldValue.float64 v)] ∧
        (bucketTags MapRange.stored s Example.envProd).get "bucket" = some s ∧
        ∀ k, k ≠ "bucket" →
          (bucketTags MapRange.stored s Example.envProd).get k = Example.envProd.get k) :=
  ⟨rfl, send_histogram_points (Example.reporterOf [] true) MapRange.stored 0 "latency"
    Example.histogram 10 20 30 40 [] rfl⟩

/-- C3: for a Timer named `n` whose snapshot returns `p50, p75, p95, p99` as
elements 0..3 of `Percentiles([0.5, 0.75, 0.95, 0.99])`, the visitor of `send`
derives exactly 14 points, one per label count, max, mean, min, stddev,
variance, p50, p75, p95, p99, m1, m5, m15, meanrate, each with tag set `T` plus
bucket = label and field mapping exactly `{n: value}`; "mean" carries `Mean`,
"meanrate" carries `RateMean`, m1/m5/m15 carry `Rate1`/`Rate5`/`Rate15`. -/
theorem send_timer_points {F : Type} [Float64 F] (r : reporter F) (ρ : MapRange)
    (now : Time) (n : String) (ms : TimerSnapshot F) (p50 p75 p95 p99 : F) (more : List F)
    (hps : ms.Percentiles [0.5, 0.75, 0.95, 0.99] = p50 :: p75 :: p95 :: p99 :: more) :
    ∃ pts, pointsOf r ρ now n (Metric.Timer ms) = some pts ∧ pts.length = 14 ∧
      pts.Perm
        ([("count", float64 ms.Count), ("max", float64 ms.Max), ("mean", ms.Mean),
          ("min", float64 ms.Min), ("stddev", ms.StdDev), ("variance", ms.Variance),
          ("p50", p50), ("p75", p75), ("p95", p95), ("p99", p99),
          ("m1", ms.Rate1), ("m5", ms.Rate5), ("m15", ms.Rate15),
          ("meanrate", ms.RateMean)].map fun sv =>
            NewPoint r.measurement (bucketTags ρ sv.1 r.tags)
              (GoMap.lit [(n, FieldValue.float64 sv.2)]) now) ∧
      (∀ (s : String) (v : F),
        (GoMap.lit [(n, FieldValue.float64 v)]).pairs = [(n, FieldValue.float64 v)] ∧
        (bucketTags ρ s r.tags).get "bucket" = some s ∧
        ∀ k, k ≠ "bucket" → (bucketTags ρ s r.tags).get k = r.tags.get k) := by
  have hperm := GoMap.range_lit_perm ρ
    [("count", (float64 ms.Count : F)), ("max", float64 ms.Max), ("mean", ms.Mean),
      ("min", float64 ms.Min), ("stddev", ms.StdDev), ("variance", ms.Variance),
      ("p50", p50), ("p75", p75), ("p95", p95), ("p99", p99),
      ("m1", ms.Rate1), ("m5", ms.Rate5), ("m15", ms.Rate15),
      ("meanrate", ms.RateMean)]
    (by simp only [List.map_cons, List.map_nil]; decide)
  have hpm := hperm.map (fun sv : String × F =>
    NewPoint r.measurement (bucketTags ρ sv.1 r.tags)
      (GoMap.lit [(n, FieldValue.float64 sv.2)]) now)
  refine ⟨_, ?_, ?_, hpm, ?_⟩
  · simp only [pointsOf, hps, List.getElem?_cons_zero, List.getElem?_cons_succ]
  · rw [hpm.length_eq]
    rfl
  · intro s v
    exact ⟨rfl, bucketTags_get_bucket ρ s r.tags, fun k hk => bucketTags_get_ne ρ s r.tags k hk⟩

/-- Witness of C3: the example timer under base tags `{env: "prod"}`. -/
theorem send_timer_points_witness :
    Example.timer.Percentiles [0.5, 0.75, 0.95, 0.99] = [10, 20, 30, 40] ∧
    ∃ pts, pointsOf (Example.reporterOf [] true) MapRange.reversed 0 "rpc"
        (Metric.Timer Example.timer) = some pts ∧ pts.length = 14 ∧
      pts.Perm
        ([("count", float64 3), ("max", float64 9), ("mean", (5 : ℚ)),
          ("min", float64 1), ("stddev", 2), ("variance", 4),
          ("p50", 10), ("p75", 20), ("p95", 30), ("p99", 40),
          ("m1", 11), ("m5", 12), ("m15", 13), ("meanrate", 14)].map fun sv =>
            NewPoint "reporter" (bucketTags MapRange.reversed sv.1 Example.envProd)
              (GoMap.lit [("rpc", FieldValue.float64 sv.2)]) 0) ∧
      (∀ (s : String) (v : ℚ),
        (GoMap.lit [("rpc", FieldValue.float64 v)]).pairs = [("rpc", FieldValue.float64 v)] ∧
        (bucketTags MapRange.reversed s Example.envProd).get "bucket" = some s ∧
        ∀ k, k ≠ "bucket" →
          (bucketTags MapRange.reversed s Example.envProd).get k = Example.envProd.get k) :=
  ⟨rfl, send_timer_points (Example.reporterOf [] true) MapRange.reversed 0 "rpc"
    Example.timer 10 20 30 40 [] rfl⟩

/-- C4: for a Meter named `n`, the visitor of `send` derives exactly 5 points,
one per label count, m1, m5, m15, mean, each with tag set `T` plus bucket =
label and field mapping exactly `{n: value}`, where count is the snapshot's
`Count` (converted to `float64`), m1/m5/m15 are `Rate1`/`Rate5`/`Rate15` and
mean is `RateMean`. -/
theorem send_meter_points {F : Type} [Float64 F] (r : reporter F) (ρ : MapRange)
    (now : Time) (n : String) (ms : MeterSnapshot F) :
    ∃ pts, pointsOf r ρ now n (Metric.Meter ms) = some pts ∧ pts.length = 5 ∧
      pts.Perm
        ([("count", float64 ms.Count), ("m1", ms.Rate1), ("m5", ms.Rate5),
          ("m15", ms.Rate15), ("mean", ms.RateMean)].map fun sv =>
            NewPoint r.measurement (bucketTags ρ sv.1 r.tags)
              (GoMap.lit [(n, FieldValue.float64 sv.2)]) now) ∧
      (∀ (s : String) (v : F),
        (GoMap.lit [(n, FieldValue.float64 v)]).pairs = [(n, FieldValue.float64 v)] ∧
        (bucketTags ρ s r.tags).get "bucket" = some s ∧
        ∀ k, k ≠ "bucket" → (bucketTags ρ s r.tags).get k = r.tags.get k) := by
  have hperm := GoMap.range_lit_perm ρ
    [("count", (float64 ms.Count : F)), ("m1", ms.Rate1), ("m5", ms.Rate5),
      ("m15", ms.Rate15), ("mean", ms.RateMean)]
    (by simp only [List.map_cons, List.map_nil]; decide)
  have hpm := hperm.map (fun sv : String × F =>
    NewPoint r.measurement (bucketTags ρ sv.1 r.tags)
      (GoMap.lit [(n, FieldValue.float64 sv.2)]) now)
  refine ⟨_, ?_, ?_, hpm, ?_⟩
  · simp only [pointsOf]
  · rw [hpm.length_eq]
    rfl
  · intro s v
    exact ⟨rfl, bucketTags_get_bucket ρ s r.tags, fun k hk => bucketTags_get_ne ρ s r.tags k hk⟩

/-- C5: on a heap where the tag set `T` is allocated, `bucketTags(l, T)` returns
a new map `R` (an address not in use before the call) with `R["bucket"] = l`
and, for every other key `k`, `R[k] = T[k]` (present in `R` iff present in
`T`); `T` and every other map of the heap are as before the call, also when `T`
has a "bucket" key; `R` has `|T| + 1` keys when `T` lacks "bucket" and `|T|`
keys when it has it; `R` is what the value-level `bucketTags` computes; and a
second call returns another new map with the same content as the first,
leaving `T` and the first result as they were. -/
theorem bucketTags_fresh_copy (ρ ρ' : MapRange) (l : String) (h : MapHeap) (T : Nat)
    (hT : T < h.length) :
    (bucketTagsRef ρ l T h).1 ≠ T ∧ h.length ≤ (bucketTagsRef ρ l T h).1 ∧
    (∀ a, a < h.length → (bucketTagsRef ρ l T h).2.load a = h.load a) ∧
    (bucketTagsRef ρ l T h).2.load (bucketTagsRef ρ l T h).1 = bucketTags ρ l (h.load T) ∧
    (bucketTags ρ l (h.load T)).get "bucket" = some l ∧
    (∀ k, k ≠ "bucket" → (bucketTags ρ l (h.load T)).get k = (h.load T).get k) ∧
    ((h.load T).get "bucket" = none →
      (bucketTags ρ l (h.load T)).len = (h.load T).len + 1) ∧
    ((h.load T).get "bucket" ≠ none →
      (bucketTags ρ l (h.load T)).len = (h.load T).len) ∧
    (bucketTagsRef ρ' l T (bucketTagsRef ρ l T h).2).1 ≠ (bucketTagsRef ρ l T h).1 ∧
    (bucketTagsRef ρ' l T (bucketTagsRef ρ l T h).2).1 ≠ T ∧
    (bucketTagsRef ρ' l T (bucketTagsRef ρ l T h).2).2.load T = h.load T ∧
    (bucketTagsRef ρ' l T (bucketTagsRef ρ l T h).2).2.load (bucketTagsRef ρ l T h).1 =
      bucketTags ρ l (h.load T) ∧
    (∀ k, ((bucketTagsRef ρ' l T (bucketTagsRef ρ l T h).2).2.load
        (bucketTagsRef ρ' l T (bucketTagsRef ρ l T h).2).1).get k =
      (bucketTags ρ l (h.load T)).get k) := by
  have hT1 : T < (h ++ [bucketTags ρ l (h.load T)]).length := by
    rw [List.length_append]
    exact Nat.lt_add_right _ hT
  have hlen1 : (h ++ [bucketTags ρ l (h.load T)]).length = h.length + 1 := by
    rw [List.length_append]
    rfl
  have hloadT : MapHeap.load (h ++ [bucketTags ρ l (h.load T)]) T = h.load T :=
    MapHeap.load_append_left h _ T hT
  rw [bucketTagsRef_eq ρ l T h hT]
  simp only []
  rw [bucketTagsRef_eq ρ' l T _ hT1]
  simp only []
  refine ⟨Nat.ne_of_gt hT, Nat.le_refl _, fun a ha => MapHeap.load_append_left h _ a ha,
    MapHeap.load_append_length h _, bucketTags_get_bucket ρ l _,
    fun k hk => bucketTags_get_ne ρ l _ k hk, ?_, ?_, ?_, ?_, ?_, ?_, ?_⟩
  · intro hnone
    rw [bucketTags_len, if_pos hnone]
  · intro hsome
    rw [bucketTags_len, if_neg hsome]
  · rw [hlen1]
    exact Nat.succ_ne_self _
  · rw [hlen1]
    omega
  · rw [MapHeap.load_append_left _ _ T hT1, hloadT]
  · rw [MapHeap.load_append_left _ _ h.length (by rw [hlen1]; exact Nat.lt_succ_self _),
      MapHeap.load_append_length]
  · intro k
    rw [MapHeap.load_append_length, hloadT]
    by_cases hk : k = "bucket"
    · subst hk
      rw [bucketTags_get_bucket, bucketTags_get_bucket]
    · rw [bucketTags_get_ne _ _ _ _ hk, bucketTags_get_ne _ _ _ _ hk]

/-- Witness of C5: `bucketTags("p99", T)` called twice on a heap holding the
tag sets `{env: prod}` and `{env: prod, bucket: b0}`, `T` being the latter. -/
theorem bucketTags_fresh_copy_witness :
    (1 < [Example.envProd, Example.envBucket].length) ∧
    (MapHeap.load [Example.envProd, Example.envBucket] 1).pairs =
      [("bucket", "b0"), ("env", "prod")] ∧
    (bucketTags MapRange.stored "p99" Example.envBucket).pairs =
      [("bucket", "p99"), ("env", "prod")] ∧
    (bucketTags MapRange.reversed "p99" Example.envBucket).pairs =
      [("bucket", "p99"), ("env", "prod")] ∧
    (bucketTagsRef MapRange.reversed "p99" 1
      (bucketTagsRef MapRange.stored "p99" 1 [Example.envProd, Example.envBucket]).2).2.load 1 =
        MapHeap.load [Example.envProd, Example.envBucket] 1 :=
  ⟨by decide, rfl, rfl, rfl,
    (bucketTags_fresh_copy MapRange.stored MapRange.reversed "p99"
      [Example.envProd, Example.envBucket] 1 (by decide)).2.2.2.2.2.2.2.2.2.2.1⟩

/-! ## Lemmas on the batch -/

/-- The points already collected stay in front of the batch. -/
theorem collect_acc {F : Type} [Float64 F] (r : reporter F) (ρ : MapRange) (now : Time)
    (reg : List (String × Metric F)) :
    ∀ acc, collect r ρ now reg acc = (collect r ρ now reg []).map fun pts => acc ++ pts := by
  induction reg with
  | nil => intro acc; simp [collect]
  | cons e reg ih =>
    intro acc
    obtain ⟨name, i⟩ := e
    simp only [collect]
    cases pointsOf r ρ now name i with
    | none => rfl
    | some ps =>
      simp only [List.nil_append]
      rw [ih (acc ++ ps), ih ps]
      cases collect r ρ now reg [] with
      | none => rfl
      | some pts => simp

/-- Visiting the registry in another order rearranges the batch. -/
theorem collect_perm {F : Type} [Float64 F] (r : reporter F) (ρ : MapRange) (now : Time)
    {reg reg' : List (String × Metric F)} (hp : reg.Perm reg') :
    ∀ pts, collect r ρ now reg [] = some pts →
      ∃ pts', collect r ρ now reg' [] = some pts' ∧ pts'.Perm pts := by
  induction hp with
  | nil => intro pts h; exact ⟨pts, h, List.Perm.refl _⟩
  | cons e _ ih =>
    intro pts h
    obtain ⟨name, i⟩ := e
    simp only [collect] at h ⊢
    cases hps : pointsOf r ρ now name i with
    | none => rw [hps] at h; cases h
    | some ps =>
      rw [hps] at h
      simp only [List.nil_append] at h ⊢
      rw [collect_acc] at h ⊢
      rename_i l₁ l₂ _
      cases h1 : collect r ρ now l₁ [] with
      | none => rw [h1] at h; cases h
      | some q =>
        rw [h1] at h
        obtain ⟨q', hq', hperm⟩ := ih q h1
        simp only [Option.map_some', Option.some.injEq] at h
        subst h
        exact ⟨ps ++ q', by rw [hq']; rfl, hperm.append_left ps⟩
  | swap x y l =>
    intro pts h
    obtain ⟨nx, ix⟩ := x
    obtain ⟨ny, iy⟩ := y
    simp only [collect] at h ⊢
    cases hx : pointsOf r ρ now nx ix with
    | none => rw [hx] at h; cases hy : pointsOf r ρ now ny iy <;> rw [hy] at h <;> cases h
    | some px =>
      cases hy : pointsOf r ρ now ny iy with
      | none => rw [hy] at h; cases h
      | some py =>
        rw [hx, hy] at h
        simp only [List.nil_append] at h ⊢
        rw [collect_acc] at h ⊢
        cases hl : collect r ρ now l [] with
        | none => rw [hl] at h; cases h
        | some q =>
          rw [hl] at h
          simp only [Option.map_some', Option.some.injEq] at h
          subst h
          refine ⟨px ++ py ++ q, rfl, ?_⟩
          exact List.Perm.append_right q List.perm_append_comm
  | trans _ _ ih₁ ih₂ =>
    intro pts h
    obtain ⟨p1, h1, hp1⟩ := ih₁ pts h
    obtain ⟨p2, h2, hp2⟩ := ih₂ p1 h1
    exact ⟨p2, h2, hp2.trans hp1⟩

/-- The `error` that `send` returns is nil whenever it returns. -/
theorem send_error_nil {F : Type} [Float64 F] (r : reporter F) (ρ : MapRange) (clock : Time)
    (w : WriteAPI F) :
    (r.send ρ clock w).map Prod.fst = (r.batch ρ clock).map fun _ => GoError.nil := by
  unfold reporter.send
  cases r.batch ρ clock <;> rfl

/-- With at least four percentile values on every Histogram and Timer, the
visitor does not panic and `send` builds a batch. -/
theorem batch_isSome {F : Type} [Float64 F] (r : reporter F) (ρ : MapRange) (clock : Time)
    (hok : ∀ e ∈ r.reg, e.2.percentilesOk = true) : ∃ pts, r.batch ρ clock = some pts :=
  Option.isSome_iff_exists.1 (collect_isSome r ρ (r.now clock) r.reg hok [])

theorem Truncate_of_pos (t d : Int) (hd : 0 < d) : Truncate t d = t - t % d := by
  unfold Truncate
  rw [if_neg (Int.not_le.2 hd)]

/-- For `d > 0`, `t - t % d` is the greatest multiple of `d` not above `t`. -/
theorem sub_emod_greatest (t d : Int) (hd : 0 < d) :
    d ∣ t - t % d ∧ t - t % d ≤ t ∧ t - d < t - t % d ∧
      ∀ m, d ∣ m → m ≤ t → m ≤ t - t % d := by
  have h0 : 0 ≤ t % d := Int.emod_nonneg t (Int.ne_of_gt hd)
  have h1 : t % d < d := Int.emod_lt_of_pos t hd
  have h2 : t - t % d = d * (t / d) := by
    have := Int.emod_add_ediv t d
    omega
  refine ⟨h2 ▸ Dvd.intro _ rfl, by omega, by omega, ?_⟩
  rintro m ⟨q, rfl⟩ hm
  rw [h2]
  have hq : q ≤ t / d := Int.le_ediv_of_mul_le hd (by rw [Int.mul_comm]; exact hm)
  exact Int.mul_le_mul_of_nonneg_left hq (Int.le_of_lt hd)

/-- Every point of the batch carries the cycle's timestamp and the reporter's
measurement, and has the name of an entry as its only field. -/
theorem batch_mem {F : Type} [Float64 F] (r : reporter F) (ρ : MapRange) (clock : Time)
    (pts : List (Point F)) (h : r.batch ρ clock = some pts) (p : Point F) (hp : p ∈ pts) :
    p.ts = r.now clock ∧ p.measurement = r.measurement ∧
      ∃ n i v ps, (n, i) ∈ r.reg ∧ pointsOf r ρ (r.now clock) n i = some ps ∧ p ∈ ps ∧
        p.fields.pairs = [(n, v)] := by
  refine collect_forall r ρ (r.now clock)
    (fun p => p.ts = r.now clock ∧ p.measurement = r.measurement ∧
      ∃ n i v ps, (n, i) ∈ r.reg ∧ pointsOf r ρ (r.now clock) n i = some ps ∧ p ∈ ps ∧
        p.fields.pairs = [(n, v)]) r.reg ?_ [] pts (fun p hp => by cases hp) h p hp
  intro e he ps hps q hq
  obtain ⟨hm, hts, v, hv⟩ := pointsOf_mem r ρ (r.now clock) e.1 e.2 ps hps q hq
  exact ⟨hts, hm, e.1, e.2, v, ps, he, hps, hq, by rw [hv]; rfl⟩

/-! ## The claims on the cycle -/

/-- C6: with time in nanoseconds and a positive interval `d`, when `align` is set
the timestamp of the cycle is `now - now mod d`, the greatest multiple of `d`
that is `<= now` (so it is `<= now`, `> now - d` and divisible by `d`); when
`align` is not set it is `now` unmodified; and every point of the batch carries
that timestamp. -/
theorem send_timestamp_alignment {F : Type} [Float64 F] (r : reporter F) (ρ : MapRange)
    (clock : Time) (hd : 0 < r.interval) :
    (r.align = true →
      r.now clock = clock - clock % r.interval ∧ r.interval ∣ r.now clock ∧
      r.now clock ≤ clock ∧ clock - r.interval < r.now clock ∧
      ∀ m, r.interval ∣ m → m ≤ clock → m ≤ r.now clock) ∧
    (r.align = false → r.now clock = clock) ∧
    (∀ pts, r.batch ρ clock = some pts → ∀ p ∈ pts, p.ts = r.now clock) := by
  refine ⟨?_, ?_, fun pts h p hp => (batch_mem r ρ clock pts h p hp).1⟩
  · intro ha
    have hn : r.now clock = clock - clock % r.interval := by
      unfold reporter.now
      rw [if_pos ha, Truncate_of_pos _ _ hd]
    rw [hn]
    exact ⟨rfl, sub_emod_greatest clock r.interval hd⟩
  · intro ha
    unfold reporter.now
    rw [ha]
    rfl

/-- Witness of C6: a 10 s interval and the clock at 12:00:07.345 give 12:00:00.000
when aligned and 12:00:07.345 when not. -/
theorem send_timestamp_alignment_witness :
    (0 < (Example.reporterOf Example.mixedRegistry true).interval) ∧
    (Example.reporterOf Example.mixedRegistry true).now Example.noonSevenSeconds =
      43200000000000 ∧
    (Example.reporterOf Example.mixedRegistry false).now Example.noonSevenSeconds =
      43207345000000 ∧
    (∀ pts, (Example.reporterOf Example.mixedRegistry true).batch MapRange.stored
        Example.noonSevenSeconds = some pts →
      ∀ p ∈ pts, p.ts =
        (Example.reporterOf Example.mixedRegistry true).now Example.noonSevenSeconds) ∧
    (∃ pts, (Example.reporterOf Example.mixedRegistry true).batch MapRange.stored
        Example.noonSevenSeconds = some pts ∧ pts.length = 32) :=
  ⟨by decide, by decide, by decide,
    (send_timestamp_alignment (Example.reporterOf Example.mixedRegistry true) MapRange.stored
      Example.noonSevenSeconds (by decide)).2.2,
    ⟨_, rfl, rfl⟩⟩

/-- C7 (the code at a failing flush): on a store that is not reachable the flush
of the cycle reports failure and nothing is stored, yet `send` returns the nil
error; in general `send` returns nil whenever it returns. -/
theorem send_nil_on_failed_flush :
    (∃ pts, (Example.reporterOf Example.requestsRegistry true).batch MapRange.stored
        Example.noonSevenSeconds = some pts ∧
      ((pts.foldl (fun w p => w.WritePoint p) (WriteAPI.init ℚ false)).Flush).2 = false) ∧
    ((Example.reporterOf Example.requestsRegistry true).send MapRange.stored
        Example.noonSevenSeconds (WriteAPI.init ℚ false)).map Prod.fst = some GoError.nil ∧
    ((Example.reporterOf Example.requestsRegistry true).send MapRange.stored
        Example.noonSevenSeconds (WriteAPI.init ℚ false)).map (fun res => res.2.stored) =
      some [] ∧
    (∀ (r : reporter ℚ) (ρ : MapRange) (clock : Time) (w : WriteAPI ℚ),
      (r.send ρ clock w).map Prod.fst = (r.batch ρ clock).map fun _ => GoError.nil) :=
  ⟨⟨_, rfl, rfl⟩, rfl, rfl, fun r ρ clock w => send_error_nil r ρ clock w⟩

/-- C8: for a registry entry that is none of Counter, Gauge, GaugeFloat64,
Histogram, Meter, Timer, the visitor of `send` derives zero points and does not
panic, and `send` returns the nil error whenever it returns; the batch and the
result of `send` are the same as for the registry without that entry, and
visiting that smaller registry in any other order gives the same batch as a
multiset. -/
theorem send_skips_unknown_kind {F : Type} [Float64 F] (r : reporter F) (ρ : MapRange)
    (n t : String) (pre post : List (String × Metric F)) (clock : Time) (w : WriteAPI F) :
    pointsOf r ρ (r.now clock) n (Metric.Other t) = some [] ∧
    ({ r with reg := pre ++ (n, Metric.Other t) :: post }).batch ρ clock =
      ({ r with reg := pre ++ post }).batch ρ clock ∧
    ({ r with reg := pre ++ (n, Metric.Other t) :: post }).send ρ clock w =
      ({ r with reg := pre ++ post }).send ρ clock w ∧
    (({ r with reg := pre ++ (n, Metric.Other t) :: post }).send ρ clock w).map Prod.fst =
      (({ r with reg := pre ++ (n, Metric.Other t) :: post }).batch ρ clock).map
        (fun _ => GoError.nil) ∧
    (∀ (others : List (String × Metric F)) (pts : List (Point F)),
      others.Perm (pre ++ post) →
      ({ r with reg := pre ++ (n, Metric.Other t) :: post }).batch ρ clock = some pts →
        ∃ pts' : List (Point F), ({ r with reg := others }).batch ρ clock = some pts' ∧
          (pts' : Multiset (Point F)) = (pts : Multiset (Point F))) := by
  have hreg : ∀ reg : List (String × Metric F),
      ({ r with reg := reg }).batch ρ clock = collect r ρ (r.now clock) reg [] :=
    fun reg => collect_congr r { r with reg := reg } ρ (r.now clock) rfl rfl reg []
  have hb : ({ r with reg := pre ++ (n, Metric.Other t) :: post }).batch ρ clock =
      ({ r with reg := pre ++ post }).batch ρ clock := by
    rw [hreg, hreg]
    exact collect_skip_other r ρ _ n t pre post []
  refine ⟨rfl, hb, ?_, send_error_nil _ ρ clock w, ?_⟩
  · unfold reporter.send
    rw [hb]
    rfl
  · intro others pts hperm h
    rw [hb, hreg] at h
    obtain ⟨pts', h', hp⟩ := collect_perm r ρ (r.now clock) hperm.symm pts h
    exact ⟨pts', by rw [hreg]; exact h', Quotient.sound hp⟩

/-- Witness of C8: the entry "health" of the example registry, a Healthcheck. -/
theorem send_skips_unknown_kind_witness :
    ∃ pts' : List (Point ℚ),
      ({ Example.reporterOf [] true with
          reg := [("hits", Metric.Meter Example.meter), ("requests", Metric.Counter 42)]
        }).batch MapRange.stored 0 = some pts' ∧
      (pts' : Multiset (Point ℚ)) =
        (((NewPoint "reporter" Example.envProd
              (GoMap.lit [("requests", FieldValue.int64 42)]) 0) ::
          ([("mean", (4 : ℚ)), ("m15", 3), ("m5", 2), ("m1", 1), ("count", 7)].map fun sv =>
            NewPoint "reporter" (bucketTags MapRange.stored sv.1 Example.envProd)
              (GoMap.lit [("hits", FieldValue.float64 sv.2)]) 0) : List (Point ℚ)) :
          Multiset (Point ℚ)) :=
  (send_skips_unknown_kind (Example.reporterOf [] true) MapRange.stored "health" "Healthcheck"
    [("requests", Metric.Counter 42)] [("hits", Metric.Meter Example.meter)] 0
    (WriteAPI.init ℚ true)).2.2.2.2
    [("hits", Metric.Meter Example.meter), ("requests", Metric.Counter 42)] _
    (List.Perm.swap _ _ []) rfl

/-- C9: every point of the batch that `send` builds has a field mapping with
exactly one entry, whose key is the name of the registry entry the point was
derived from; and `send` builds a batch whenever every Histogram and Timer of
the registry returns at least four percentile values. -/
theorem send_point_single_field {F : Type} [Float64 F] (r : reporter F) (ρ : MapRange)
    (clock : Time) :
    (∀ pts, r.batch ρ clock = some pts → ∀ p ∈ pts,
      ∃ n i v ps, (n, i) ∈ r.reg ∧ pointsOf r ρ (r.now clock) n i = some ps ∧ p ∈ ps ∧
        p.fields.pairs = [(n, v)]) ∧
    ((∀ e ∈ r.reg, e.2.percentilesOk = true) → ∃ pts, r.batch ρ clock = some pts) :=
  ⟨fun pts h p hp => (batch_mem r ρ clock pts h p hp).2.2, batch_isSome r ρ clock⟩

/-- Witness of C9: the example registry with one entry of each kind. -/
theorem send_point_single_field_witness :
    (∀ e ∈ (Example.reporterOf Example.mixedRegistry true).reg, e.2.percentilesOk = true) ∧
    ∃ pts, (Example.reporterOf Example.mixedRegistry true).batch MapRange.reversed
        Example.noonSevenSeconds = some pts ∧ pts.length = 32 ∧
      ∀ p ∈ pts, ∃ n i v ps, (n, i) ∈ (Example.reporterOf Example.mixedRegistry true).reg ∧
        pointsOf (Example.reporterOf Example.mixedRegistry true) MapRange.reversed
          ((Example.reporterOf Example.mixedRegistry true).now Example.noonSevenSeconds) n i =
            some ps ∧ p ∈ ps ∧ p.fields.pairs = [(n, v)] :=
  ⟨by decide, _, rfl, rfl,
    (send_point_single_field (Example.reporterOf Example.mixedRegistry true) MapRange.reversed
      Example.noonSevenSeconds).1 _ rfl⟩

/-- C10: all points of the batch built by one invocation of `send` carry the
same timestamp, the value of `now` computed once at the start of the cycle
(`time.Now()`, truncated to the interval when `align` is set), and the same
measurement name, the reporter's; and `send` builds a batch whenever every
Histogram and Timer of the registry returns at least four percentile values. -/
theorem send_shared_timestamp_measurement {F : Type} [Float64 F] (r : reporter F)
    (ρ : MapRange) (clock : Time) :
    (r.now clock = if r.align then Truncate clock r.interval else clock) ∧
    (∀ pts, r.batch ρ clock = some pts →
      ∀ p ∈ pts, p.ts = r.now clock ∧ p.measurement = r.measurement) ∧
    ((∀ e ∈ r.reg, e.2.percentilesOk = true) → ∃ pts, r.batch ρ clock = some pts) :=
  ⟨rfl,
    fun pts h p hp =>
      ⟨(batch_mem r ρ clock pts h p hp).1, (batch_mem r ρ clock pts h p hp).2.1⟩,
    batch_isSome r ρ clock⟩

/-- Witness of C10: the example registry, clock at 12:00:07.345, aligned. -/
theorem send_shared_timestamp_measurement_witness :
    (∀ e ∈ (Example.reporterOf Example.mixedRegistry true).reg, e.2.percentilesOk = true) ∧
    ∃ pts, (Example.reporterOf Example.mixedRegistry true).batch MapRange.stored
        Example.noonSevenSeconds = some pts ∧ pts.length = 32 ∧
      ∀ p ∈ pts, p.ts = 43200000000000 ∧ p.measurement = "reporter" :=
  ⟨by decide, _, rfl, rfl,
    (send_shared_timestamp_measurement (Example.reporterOf Example.mixedRegistry true)
      MapRange.stored Example.noonSevenSeconds).2.1 _ rfl⟩

/-! ## Lemmas on the write API -/

/-- Enqueuing a batch appends one `WritePoint` call per point, in batch order,
to the trace and the points to the queue, and leaves the rest alone. -/
theorem foldl_WritePoint {F : Type} (pts : List (Point F)) :
    ∀ w : WriteAPI F,
      (pts.foldl (fun w p => w.WritePoint p) w).trace =
          w.trace ++ pts.map SinkCall.WritePoint ∧
        (pts.foldl (fun w p => w.WritePoint p) w).queue = w.queue ++ pts ∧
        (pts.foldl (fun w p => w.WritePoint p) w).stored = w.stored ∧
        (pts.foldl (fun w p => w.WritePoint p) w).reachable = w.reachable := by
  induction pts with
  | nil => intro w; simp
  | cons p pts ih =>
    intro w
    obtain ⟨h1, h2, h3, h4⟩ := ih (w.WritePoint p)
    rw [List.foldl_cons, h1, h2, h3, h4]
    simp [WriteAPI.WritePoint]

theorem Flush_trace {F : Type} (w : WriteAPI F) :
    (w.Flush).1.trace = w.trace ++ [SinkCall.Flush] := by
  unfold WriteAPI.Flush
  split <;> rfl

theorem write_trace {F : Type} (r : reporter F) (pts : List (Point F)) (w : WriteAPI F) :
    (r.write pts w).trace = w.trace ++ pts.map SinkCall.WritePoint ++ [SinkCall.Flush] := by
  unfold reporter.write
  simp only []
  rw [Flush_trace, (foldl_WritePoint pts w).1]

theorem countP_isFlush_map_WritePoint {F : Type} (pts : List (Point F)) :
    (pts.map (SinkCall.WritePoint : Point F → SinkCall F)).countP SinkCall.isFlush = 0 := by
  induction pts with
  | nil => rfl
  | cons p pts ih => simp [List.countP_cons, SinkCall.isFlush, ih]

theorem filterMap_point_map_WritePoint {F : Type} (pts : List (Point F)) :
    (pts.map (SinkCall.WritePoint : Point F → SinkCall F)).filterMap SinkCall.point? = pts := by
  induction pts with
  | nil => rfl
  | cons p pts ih => simp [SinkCall.point?, ih]

/-! ## The claims on the write API, the constructors and the loop -/

/-- C11: with the write API as explicit state, `write(pts)` enqueues each point
of `pts` exactly once, in batch order, and nothing else, then calls `Flush`
exactly once, after the last enqueue (also when `pts` is empty); and an
invocation of `send` that builds the batch `b` is one call of `write` with `b`. -/
theorem write_enqueues_then_flushes {F : Type} [Float64 F] (r : reporter F) (ρ : MapRange)
    (clock : Time) (pts : List (Point F)) (w : WriteAPI F) :
    (r.write pts w).trace = w.trace ++ pts.map SinkCall.WritePoint ++ [SinkCall.Flush] ∧
    (r.write pts w).enqueued = w.enqueued ++ pts ∧
    (r.write pts w).flushes = w.flushes + 1 ∧
    (pts.foldl (fun w p => w.WritePoint p) w).queue = w.queue ++ pts ∧
    (r.write [] w).trace = w.trace ++ [SinkCall.Flush] ∧
    r.send ρ clock w = (r.batch ρ clock).map (fun b => (GoError.nil, r.write b w)) ∧
    ((r.send ρ clock w).map fun res => res.2.trace) =
      (r.batch ρ clock).map fun b => w.trace ++ b.map SinkCall.WritePoint ++ [SinkCall.Flush] := by
  have hsend : r.send ρ clock w =
      (r.batch ρ clock).map (fun b => (GoError.nil, r.write b w)) := by
    unfold reporter.send
    cases r.batch ρ clock <;> rfl
  refine ⟨write_trace r pts w, ?_, ?_, (foldl_WritePoint pts w).2.1, ?_, hsend, ?_⟩
  · unfold WriteAPI.enqueued
    rw [write_trace, List.filterMap_append, List.filterMap_append,
      filterMap_point_map_WritePoint]
    simp [SinkCall.point?]
  · unfold WriteAPI.flushes
    rw [write_trace, List.countP_append, List.countP_append, countP_isFlush_map_WritePoint]
    simp [SinkCall.isFlush]
  · rw [write_trace, List.map_nil, List.append_nil]
  · rw [hsend]
    cases r.batch ρ clock with
    | none => rfl
    | some b => simp [write_trace]

/-- C12: `New(r, url, token, org, bucket, interval)` is
`NewWithTags(r, url, token, org, bucket, "reporter", interval, {}, true)`: the
measurement is "reporter", the base tag set is empty, `align` is true, and
registry, org, bucket and interval are the arguments passed. -/
theorem New_defaults {F : Type} (reg : List (String × Metric F))
    (serverURL token org bucket : String) (interval : Int) :
    (New reg serverURL token org bucket interval : reporter F) =
      NewWithTags reg serverURL token org bucket "reporter" interval ∅ true ∧
    (New reg serverURL token org bucket interval : reporter F).measurement = "reporter" ∧
    (New reg serverURL token org bucket interval : reporter F).tags = ∅ ∧
    (New reg serverURL token org bucket interval : reporter F).tags.len = 0 ∧
    (New reg serverURL token org bucket interval : reporter F).align = true ∧
    (New reg serverURL token org bucket interval : reporter F).reg = reg ∧
    (New reg serverURL token org bucket interval : reporter F).org = org ∧
    (New reg serverURL token org bucket interval : reporter F).bucket = bucket ∧
    (New reg serverURL token org bucket interval : reporter F).interval = interval ∧
    (New reg serverURL token org bucket interval : reporter F).client = ⟨serverURL, token⟩ :=
  ⟨rfl, rfl, rfl, rfl, rfl, rfl, rfl, rfl, rfl, rfl⟩

/-! ## Lemmas on the loop -/

theorem observe_ctl {F : Type} (s : RunState F) (res : GoError × WriteAPI F) :
    (s.observe res).ctl = RunControl.waiting := by
  unfold RunState.observe
  split <;> rfl

/-- A step never leads to the returned state from a state that is not one. -/
theorem RunStep_ne_returned {F : Type} [Float64 F] (r : reporter F) (s : RunState F)
    (t : Tick F) (hs : s.ctl ≠ RunControl.returned) :
    (r.RunStep s t).ctl ≠ RunControl.returned := by
  unfold reporter.RunStep
  split
  · split
    · intro h; cases h
    · rw [observe_ctl]
      intro h; cases h
  · exact hs

theorem Run_ne_returned {F : Type} [Float64 F] (r : reporter F) (ticks : List (Tick F)) :
    ∀ s : RunState F, s.ctl ≠ RunControl.returned →
      (r.Run ticks s).ctl ≠ RunControl.returned := by
  induction ticks with
  | nil => intro s hs; exact hs
  | cons t ticks ih =>
    intro s hs
    exact ih _ (RunStep_ne_returned r s t hs)

/-- A step from the waiting state whose `send` returns goes back to waiting. -/
theorem RunStep_waiting {F : Type} [Float64 F] (r : reporter F) (s : RunState F)
    (t : Tick F) (hs : s.ctl = RunControl.waiting)
    (hok : ∀ e ∈ t.reg, e.2.percentilesOk = true) :
    (r.RunStep s t).ctl = RunControl.waiting := by
  obtain ⟨pts, hpts⟩ := batch_isSome { r with reg := t.reg } t.order t.clock hok
  unfold reporter.RunStep
  rw [hs]
  simp only [reporter.send, hpts]
  exact observe_ctl _ _

theorem Run_waiting {F : Type} [Float64 F] (r : reporter F) (ticks : List (Tick F)) :
    ∀ s : RunState F, s.ctl = RunControl.waiting →
      (∀ t ∈ ticks, ∀ e ∈ t.reg, e.2.percentilesOk = true) →
        (r.Run ticks s).ctl = RunControl.waiting := by
  induction ticks with
  | nil => intro s hs _; exact hs
  | cons t ticks ih =>
    intro s hs hok
    exact ih _ (RunStep_waiting r s t hs (hok t (List.mem_cons_self _ _)))
      (fun t' ht' => hok t' (List.mem_cons_of_mem _ ht'))

/-- C13: with `Run` as a step function over ticks, a failing cycle does not stop
the loop: whatever `send` returned, an error or nil, the next state is the
waiting state, and the only effect of an error is one more log line; a step
from the waiting state whose `send` returned is that observation; no state
reached from the start is a returned state; and as long as every `send`
returns, every state reached is the waiting state. -/
theorem Run_continues_after_failure {F : Type} [Float64 F] (r : reporter F)
    (ticks : List (Tick F)) (w : WriteAPI F)
    (hok : ∀ t ∈ ticks, ∀ e ∈ t.reg, e.2.percentilesOk = true) :
    (∀ (s : RunState F) (w' : WriteAPI F),
      s.observe (GoError.nil, w') = ⟨RunControl.waiting, s.log, w'⟩) ∧
    (∀ (s : RunState F) (msg : String) (w' : WriteAPI F),
      s.observe (GoError.err msg, w') =
        ⟨RunControl.waiting, s.log ++ ["unable to send metrics to InfluxDB. err=" ++ msg], w'⟩) ∧
    (∀ (s : RunState F) (t : Tick F) (res : GoError × WriteAPI F),
      s.ctl = RunControl.waiting →
      ({ r with reg := t.reg }).send t.order t.clock s.api = some res →
        r.RunStep s t = s.observe res) ∧
    (∀ ticks' : List (Tick F), (r.Run ticks' (RunState.init w)).ctl ≠ RunControl.returned) ∧
    (∀ n, (r.Run (ticks.take n) (RunState.init w)).ctl = RunControl.waiting) := by
  refine ⟨fun _ _ => rfl, fun _ _ _ => rfl, ?_, ?_, ?_⟩
  · intro s t res hs hres
    unfold reporter.RunStep
    rw [hs]
    simp only [hres]
  · intro ticks'
    exact Run_ne_returned r ticks' _ (by intro h; cases h)
  · intro n
    exact Run_waiting r _ _ rfl (fun t ht => hok t (List.mem_of_mem_take ht))

/-- Witness of C13: two ticks on the example registry. -/
theorem Run_continues_after_failure_witness :
    (∀ t ∈ Example.twoTicks, ∀ e ∈ t.reg, e.2.percentilesOk = true) ∧
    ((Example.reporterOf [] true).Run Example.twoTicks
      (RunState.init (WriteAPI.init ℚ false))).ctl = RunControl.waiting ∧
    ((RunState.init (WriteAPI.init ℚ false)).observe
      (GoError.err "timeout", WriteAPI.init ℚ false)).log =
        ["unable to send metrics to InfluxDB. err=timeout"] :=
  ⟨by decide,
    (Run_continues_after_failure (Example.reporterOf [] true) Example.twoTicks
      (WriteAPI.init ℚ false) (by decide)).2.2.2.2 2,
    by decide⟩

/-! ## Lemmas on the shape of the batch -/

/-- The batch of a registry with a first entry: the points of that entry, then
the batch of the rest. -/
theorem collect_cons_nil {F : Type} [Float64 F] (r : reporter F) (ρ : MapRange) (now : Time)
    (n : String) (i : Metric F) (reg : List (String × Metric F)) (pts : List (Point F))
    (h : collect r ρ now ((n, i) :: reg) [] = some pts) :
    ∃ ps q, pointsOf r ρ now n i = some ps ∧ collect r ρ now reg [] = some q ∧
      pts = ps ++ q := by
  simp only [collect] at h
  cases hps : pointsOf r ρ now n i with
  | none => rw [hps] at h; cases h
  | some ps =>
    rw [hps] at h
    simp only [List.nil_append] at h
    rw [collect_acc] at h
    cases hq : collect r ρ now reg [] with
    | none => rw [hq] at h; cases h
    | some q =>
      rw [hq] at h
      simp only [Option.map_some', Option.some.injEq] at h
      exact ⟨ps, q, rfl, rfl, h.symm⟩

/-- The visitor derives as many points for an entry as the table of the spec
says for its kind. -/
theorem pointsOf_length {F : Type} [Float64 F] (r : reporter F) (ρ : MapRange) (now : Time)
    (name : String) (i : Metric F) (ps : List (Point F))
    (h : pointsOf r ρ now name i = some ps) : ps.length = i.pointCount := by
  cases i with
  | Counter c => simp only [pointsOf, Option.some.injEq] at h; subst h; rfl
  | Gauge c => simp only [pointsOf, Option.some.injEq] at h; subst h; rfl
  | GaugeFloat64 c => simp only [pointsOf, Option.some.injEq] at h; subst h; rfl
  | Histogram ms =>
    simp only [pointsOf] at h
    split at h
    · simp only [Option.some.injEq] at h
      subst h
      rw [List.length_map, (GoMap.range_lit_perm ρ _
        (by simp only [List.map_cons, List.map_nil]; decide)).length_eq]
      rfl
    · cases h
  | Meter ms =>
    simp only [pointsOf, Option.some.injEq] at h
    subst h
    rw [List.length_map, (GoMap.range_lit_perm ρ _
      (by simp only [List.map_cons, List.map_nil]; decide)).length_eq]
    rfl
  | Timer ms =>
    simp only [pointsOf] at h
    split at h
    · simp only [Option.some.injEq] at h
      subst h
      rw [List.length_map, (GoMap.range_lit_perm ρ _
        (by simp only [List.map_cons, List.map_nil]; decide)).length_eq]
      rfl
    · cases h
  | Other t => simp only [pointsOf, Option.some.injEq] at h; subst h; rfl

/-- The batch is the concatenation of the points of the entries, in order. -/
theorem collect_flatten {F : Type} [Float64 F] (r : reporter F) (ρ : MapRange) (now : Time)
    (reg : List (String × Metric F)) :
    ∀ pts, collect r ρ now reg [] = some pts →
      ∃ pss, List.Forall₂ (fun e ps => pointsOf r ρ now e.1 e.2 = some ps) reg pss ∧
        pts = pss.flatten := by
  induction reg with
  | nil =>
    intro pts h
    simp only [collect, Option.some.injEq] at h
    exact ⟨[], List.Forall₂.nil, h.symm⟩
  | cons e reg ih =>
    intro pts h
    obtain ⟨n, i⟩ := e
    obtain ⟨ps, q, hps, hq, rfl⟩ := collect_cons_nil r ρ now n i reg pts h
    obtain ⟨pss, hall, rfl⟩ := ih q hq
    exact ⟨ps :: pss, List.Forall₂.cons hps hall, rfl⟩

/-- The sum of the per-kind counts, as counts of kinds. -/
theorem sum_pointCount {F : Type} (reg : List (String × Metric F)) :
    (reg.map fun e => e.2.pointCount).sum =
      1 * reg.countP (fun e => e.2.isPlain) + 10 * reg.countP (fun e => e.2.isHistogram) +
        5 * reg.countP (fun e => e.2.isMeter) + 14 * reg.countP (fun e => e.2.isTimer) +
        0 * reg.countP (fun e => e.2.isOther) := by
  induction reg with
  | nil => rfl
  | cons e reg ih =>
    obtain ⟨n, i⟩ := e
    rw [List.map_cons, List.sum_cons, ih]
    cases i <;>
      simp [List.countP_cons, Metric.pointCount, Metric.isPlain, Metric.isHistogram,
        Metric.isMeter, Metric.isTimer, Metric.isOther] <;> omega

theorem collect_length {F : Type} [Float64 F] (r : reporter F) (ρ : MapRange) (now : Time)
    (reg : List (String × Metric F)) :
    ∀ pts, collect r ρ now reg [] = some pts →
      pts.length = (reg.map fun e => e.2.pointCount).sum := by
  induction reg with
  | nil =>
    intro pts h
    simp only [collect, Option.some.injEq] at h
    subst h
    rfl
  | cons e reg ih =>
    intro pts h
    obtain ⟨n, i⟩ := e
    obtain ⟨ps, q, hps, hq, rfl⟩ := collect_cons_nil r ρ now n i reg pts h
    rw [List.length_append, pointsOf_length r ρ now n i ps hps, ih q hq]
    rfl

/-! ## The claims on the whole batch -/

/-- C14: the batch that `send` builds is the concatenation, over the registry
entries in visiting order, each taken once, of the points derived for each
entry, so its length is 1 * (number of Counter, Gauge and GaugeFloat64
entries) + 10 * (Histogram entries) + 5 * (Meter entries) + 14 * (Timer
entries) + 0 * (entries of any other kind); an empty registry gives the empty
batch; and a batch is built whenever every Histogram and Timer of the registry
returns at least four percentile values. -/
theorem send_batch_concatenation {F : Type} [Float64 F] (r : reporter F) (ρ : MapRange)
    (clock : Time) :
    (∀ pts, r.batch ρ clock = some pts →
      (∃ pss, List.Forall₂ (fun e ps => pointsOf r ρ (r.now clock) e.1 e.2 = some ps)
          r.reg pss ∧ pts = pss.flatten) ∧
      pts.length =
        1 * r.reg.countP (fun e => e.2.isPlain) + 10 * r.reg.countP (fun e => e.2.isHistogram) +
          5 * r.reg.countP (fun e => e.2.isMeter) + 14 * r.reg.countP (fun e => e.2.isTimer) +
          0 * r.reg.countP (fun e => e.2.isOther)) ∧
    (r.reg = [] → r.batch ρ clock = some []) ∧
    ((∀ e ∈ r.reg, e.2.percentilesOk = true) → ∃ pts, r.batch ρ clock = some pts) := by
  refine ⟨fun pts h => ⟨collect_flatten r ρ _ r.reg pts h, ?_⟩, ?_, batch_isSome r ρ clock⟩
  · rw [← sum_pointCount]
    exact collect_length r ρ _ r.reg pts h
  · intro hreg
    unfold reporter.batch
    rw [hreg]
    rfl

/-- Witness of C14: the example registry has three plain entries and one of
each other kind, and its batch has 32 points; the empty registry has none. -/
theorem send_batch_concatenation_witness :
    (∀ e ∈ (Example.reporterOf Example.mixedRegistry true).reg, e.2.percentilesOk = true) ∧
    (∃ pts, (Example.reporterOf Example.mixedRegistry true).batch MapRange.stored
        Example.noonSevenSeconds = some pts ∧
      pts.length = 1 * 3 + 10 * 1 + 5 * 1 + 14 * 1 + 0 * 1) ∧
    (Example.reporterOf [] true).batch MapRange.stored Example.noonSevenSeconds = some [] :=
  ⟨by decide,
    ⟨_, rfl,
      ((send_batch_concatenation (Example.reporterOf Example.mixedRegistry true)
        MapRange.stored Example.noonSevenSeconds).1 _ rfl).2⟩,
    (send_batch_concatenation (Example.reporterOf [] true) MapRange.stored
      Example.noonSevenSeconds).2.1 rfl⟩

/-! ## Lemmas on the distinctness of the points -/

/-- The points derived from a fields map with distinct labels have pairwise
distinct "bucket" tag values. -/
theorem bucket_points_pairwise {F : Type} (ρ : MapRange) (measurement name : String)
    (tags : GoMap String) (now : Time) (l : List (String × F))
    (hnd : (l.map Prod.fst).Nodup) :
    ((GoMap.range ρ (GoMap.lit l)).map fun kv =>
        NewPoint measurement (bucketTags ρ kv.1 tags)
          (GoMap.lit [(name, FieldValue.float64 kv.2)]) now).Pairwise
      (fun p q => p.tags.get "bucket" ≠ q.tags.get "bucket") := by
  have hperm := GoMap.range_lit_perm ρ l hnd
  have hnd' : ((GoMap.range ρ (GoMap.lit l)).map Prod.fst).Nodup :=
    (hperm.map Prod.fst).nodup_iff.2 hnd
  rw [List.pairwise_map]
  have hpw : (GoMap.range ρ (GoMap.lit l)).Pairwise (fun a b => a.1 ≠ b.1) := by
    unfold List.Nodup at hnd'
    rw [List.pairwise_map] at hnd'
    exact hnd'
  refine hpw.imp ?_
  intro a b hab
  show (bucketTags ρ a.1 tags).get "bucket" ≠ (bucketTags ρ b.1 tags).get "bucket"
  rw [bucketTags_get_bucket, bucketTags_get_bucket]
  intro h
  exact hab (Option.some.inj h)

/-- The points of one entry have pairwise distinct "bucket" tag values. -/
theorem pointsOf_pairwise {F : Type} [Float64 F] (r : reporter F) (ρ : MapRange) (now : Time)
    (name : String) (i : Metric F) (ps : List (Point F))
    (h : pointsOf r ρ now name i = some ps) :
    ps.Pairwise (fun p q => p.tags.get "bucket" ≠ q.tags.get "bucket") := by
  cases i with
  | Counter c =>
    simp only [pointsOf, Option.some.injEq] at h
    subst h
    exact List.pairwise_singleton _ _
  | Gauge c =>
    simp only [pointsOf, Option.some.injEq] at h
    subst h
    exact List.pairwise_singleton _ _
  | GaugeFloat64 c =>
    simp only [pointsOf, Option.some.injEq] at h
    subst h
    exact List.pairwise_singleton _ _
  | Histogram ms =>
    simp only [pointsOf] at h
    split at h
    · simp only [Option.some.injEq] at h
      subst h
      exact bucket_points_pairwise ρ _ _ _ _ _
        (by simp only [List.map_cons, List.map_nil]; decide)
    · cases h
  | Meter ms =>
    simp only [pointsOf, Option.some.injEq] at h
    subst h
    exact bucket_points_pairwise ρ _ _ _ _ _
      (by simp only [List.map_cons, List.map_nil]; decide)
  | Timer ms =>
    simp only [pointsOf] at h
    split at h
    · simp only [Option.some.injEq] at h
      subst h
      exact bucket_points_pairwise ρ _ _ _ _ _
        (by simp only [List.map_cons, List.map_nil]; decide)
    · cases h
  | Other t =>
    simp only [pointsOf, Option.some.injEq] at h
    subst h
    exact List.Pairwise.nil

/-- The only field name of a point derived for an entry is the entry's name. -/
theorem pointsOf_fieldNames {F : Type} [Float64 F] (r : reporter F) (ρ : MapRange) (now : Time)
    (name : String) (i : Metric F) (ps : List (Point F))
    (h : pointsOf r ρ now name i = some ps) (p : Point F) (hp : p ∈ ps) :
    p.fieldNames = [name] := by
  obtain ⟨_, _, v, hv⟩ := pointsOf_mem r ρ now name i ps h p hp
  unfold Point.fieldNames
  rw [hv]
  rfl

/-- With distinct entry names, two points of a batch differ in field name or in
"bucket" tag value, and every point is named after an entry. -/
theorem collect_pairwise {F : Type} [Float64 F] (r : reporter F) (ρ : MapRange) (now : Time)
    (reg : List (String × Metric F)) :
    (reg.map Prod.fst).Nodup → ∀ pts, collect r ρ now reg [] = some pts →
      pts.Pairwise (fun p q =>
        p.fieldNames ≠ q.fieldNames ∨ p.tags.get "bucket" ≠ q.tags.get "bucket") ∧
      ∀ p ∈ pts, ∃ n ∈ reg.map Prod.fst, p.fieldNames = [n] := by
  induction reg with
  | nil =>
    intro _ pts h
    simp only [collect, Option.some.injEq] at h
    subst h
    exact ⟨List.Pairwise.nil, fun p hp => by cases hp⟩
  | cons e reg ih =>
    intro hnd pts h
    obtain ⟨n, i⟩ := e
    rw [List.map_cons, List.nodup_cons] at hnd
    obtain ⟨ps, q, hps, hq, rfl⟩ := collect_cons_nil r ρ now n i reg pts h
    obtain ⟨hpw, hnames⟩ := ih hnd.2 q hq
    constructor
    · rw [List.pairwise_append]
      refine ⟨(pointsOf_pairwise r ρ now n i ps hps).imp (fun h => Or.inr h), hpw, ?_⟩
      intro a ha b hb
      left
      obtain ⟨n', hn', hb'⟩ := hnames b hb
      rw [pointsOf_fieldNames r ρ now n i ps hps a ha, hb']
      intro heq
      have : n = n' := List.head_eq_of_cons_eq heq
      exact hnd.1 (this ▸ hn')
    · intro p hp
      rcases List.mem_append.1 hp with h1 | h2
      · exact ⟨n, List.mem_cons_self _ _, pointsOf_fieldNames r ρ now n i ps hps p h1⟩
      · obtain ⟨n', hn', hp'⟩ := hnames p h2
        exact ⟨n', List.mem_cons_of_mem _ hn', hp'⟩

/-- C15: for a registry with pairwise distinct metric names and any base tag set
(one with a "bucket" key included), no two points at different positions of the
batch have both the same field name and the same tag set: two such points
differ in field name or in the value of their "bucket" tag; the points of one
entry have pairwise distinct "bucket" values, and the points of entries with
different names differ in field name. A batch is built whenever every
Histogram and Timer of the registry returns at least four percentile values. -/
theorem send_points_distinct_series {F : Type} [Float64 F] (r : reporter F) (ρ : MapRange)
    (clock : Time) (hnd : (r.reg.map Prod.fst).Nodup) :
    (∀ pts, r.batch ρ clock = some pts →
      pts.Pairwise (fun p q =>
        ¬ (p.fieldNames = q.fieldNames ∧ ∀ k, p.tags.get k = q.tags.get k))) ∧
    (∀ pts, r.batch ρ clock = some pts →
      pts.Pairwise (fun p q =>
        p.fieldNames ≠ q.fieldNames ∨ p.tags.get "bucket" ≠ q.tags.get "bucket")) ∧
    (∀ n i ps, pointsOf r ρ (r.now clock) n i = some ps →
      ps.Pairwise (fun p q => p.tags.get "bucket" ≠ q.tags.get "bucket")) ∧
    (∀ n i ps n' i' ps', n ≠ n' → pointsOf r ρ (r.now clock) n i = some ps →
      pointsOf r ρ (r.now clock) n' i' = some ps' →
        ∀ p ∈ ps, ∀ q ∈ ps', p.fieldNames ≠ q.fieldNames) ∧
    ((∀ e ∈ r.reg, e.2.percentilesOk = true) → ∃ pts, r.batch ρ clock = some pts) := by
  refine ⟨?_, fun pts h => (collect_pairwise r ρ _ r.reg hnd pts h).1,
    fun n i ps h => pointsOf_pairwise r ρ _ n i ps h, ?_, batch_isSome r ρ clock⟩
  · intro pts h
    refine (collect_pairwise r ρ _ r.reg hnd pts h).1.imp ?_
    intro p q hpq hboth
    rcases hpq with h1 | h2
    · exact h1 hboth.1
    · exact h2 (hboth.2 "bucket")
  · intro n i ps n' i' ps' hne hps hps' p hp q hq
    rw [pointsOf_fieldNames r ρ _ n i ps hps p hp, pointsOf_fieldNames r ρ _ n' i' ps' hps' q hq]
    intro heq
    exact hne (List.head_eq_of_cons_eq heq)

/-- Witness of C15: the example registry under base tags that already have a
"bucket" key. -/
theorem send_points_distinct_series_witness :
    (({ Example.reporterOf Example.mixedRegistry true with
        tags := Example.envBucket }).reg.map Prod.fst).Nodup ∧
    ∃ pts, ({ Example.reporterOf Example.mixedRegistry true with
        tags := Example.envBucket }).batch MapRange.stored Example.noonSevenSeconds =
          some pts ∧ pts.length = 32 ∧
      pts.Pairwise (fun p q =>
        ¬ (p.fieldNames = q.fieldNames ∧ ∀ k, p.tags.get k = q.tags.get k)) :=
  ⟨by decide, _, rfl, rfl,
    (send_points_distinct_series
      { Example.reporterOf Example.mixedRegistry true with tags := Example.envBucket }
      MapRange.stored Example.noonSevenSeconds (by decide)).1 _ rfl⟩

/-! ## The indexed reads of the percentiles -/

/-- The four reads `ps[0]` .. `ps[3]` of a list with at least four elements are
in range. -/
theorem reads_in_range {α : Type} (ps : List α) (h : 4 ≤ ps.length) :
    (ps[0]?).isSome = true ∧ (ps[1]?).isSome = true ∧ (ps[2]?).isSome = true ∧
      (ps[3]?).isSome = true := by
  match ps, h with
  | _ :: _ :: _ :: _ :: _, _ => simp

/-- The read `ps[3]` of a list with fewer than four elements is out of range. -/
theorem read_out_of_range {α : Type} (ps : List α) (h : ps.length < 4) : ps[3]? = none :=
  List.getElem?_eq_none (Nat.le_of_lt_succ h)

/-- C16: when the snapshot's `Percentiles` returns as many elements as the four
quantiles it is given, the reads `ps[0]`, `ps[1]`, `ps[2]`, `ps[3]` of the
Histogram and Timer cases are all in range and the visitor returns its points,
so `send` returns when this holds of every Histogram and Timer of the
registry; when `Percentiles` returns fewer than four values, the read `ps[3]`
is out of range and the visitor panics. -/
theorem send_percentile_reads {F : Type} [Float64 F] (r : reporter F) (ρ : MapRange)
    (now : Time) (n : String) (hs : HistogramSnapshot F) (ts : TimerSnapshot F) :
    ((hs.Percentiles [0.5, 0.75, 0.95, 0.99]).length = [(0.5 : F), 0.75, 0.95, 0.99].length →
      ((hs.Percentiles [0.5, 0.75, 0.95, 0.99])[0]?).isSome = true ∧
      ((hs.Percentiles [0.5, 0.75, 0.95, 0.99])[1]?).isSome = true ∧
      ((hs.Percentiles [0.5, 0.75, 0.95, 0.99])[2]?).isSome = true ∧
      ((hs.Percentiles [0.5, 0.75, 0.95, 0.99])[3]?).isSome = true ∧
      (pointsOf r ρ now n (Metric.Histogram hs)).isSome = true) ∧
    ((ts.Percentiles [0.5, 0.75, 0.95, 0.99]).length = [(0.5 : F), 0.75, 0.95, 0.99].length →
      ((ts.Percentiles [0.5, 0.75, 0.95, 0.99])[0]?).isSome = true ∧
      ((ts.Percentiles [0.5, 0.75, 0.95, 0.99])[1]?).isSome = true ∧
      ((ts.Percentiles [0.5, 0.75, 0.95, 0.99])[2]?).isSome = true ∧
      ((ts.Percentiles [0.5, 0.75, 0.95, 0.99])[3]?).isSome = true ∧
      (pointsOf r ρ now n (Metric.Timer ts)).isSome = true) ∧
    ((hs.Percentiles [0.5, 0.75, 0.95, 0.99]).length < 4 →
      (hs.Percentiles [0.5, 0.75, 0.95, 0.99])[3]? = none ∧
      pointsOf r ρ now n (Metric.Histogram hs) = none) ∧
    ((ts.Percentiles [0.5, 0.75, 0.95, 0.99]).length < 4 →
      (ts.Percentiles [0.5, 0.75, 0.95, 0.99])[3]? = none ∧
      pointsOf r ρ now n (Metric.Timer ts) = none) ∧
    (∀ (clock : Time) (w : WriteAPI F),
      (∀ e ∈ r.reg, e.2.percentilesOk = true) → (r.send ρ clock w).isSome = true) := by
  refine ⟨?_, ?_, ?_, ?_, ?_⟩
  · intro hlen
    have h4 : 4 ≤ (hs.Percentiles [0.5, 0.75, 0.95, 0.99]).length := by
      rw [hlen]
      exact Nat.le_refl _
    obtain ⟨h0, h1, h2, h3⟩ := reads_in_range _ h4
    exact ⟨h0, h1, h2, h3, pointsOf_isSome r ρ now n (Metric.Histogram hs)
      (by simp only [Metric.percentilesOk, decide_eq_true_eq]; exact h4)⟩
  · intro hlen
    have h4 : 4 ≤ (ts.Percentiles [0.5, 0.75, 0.95, 0.99]).length := by
      rw [hlen]
      exact Nat.le_refl _
    obtain ⟨h0, h1, h2, h3⟩ := reads_in_range _ h4
    exact ⟨h0, h1, h2, h3, pointsOf_isSome r ρ now n (Metric.Timer ts)
      (by simp only [Metric.percentilesOk, decide_eq_true_eq]; exact h4)⟩
  · intro hlt
    have h3 := read_out_of_range _ hlt
    refine ⟨h3, ?_⟩
    simp only [pointsOf]
    split
    · rename_i heq3
      rw [h3] at heq3
      cases heq3
    · rfl
  · intro hlt
    have h3 := read_out_of_range _ hlt
    refine ⟨h3, ?_⟩
    simp only [pointsOf]
    split
    · rename_i heq3
      rw [h3] at heq3
      cases heq3
    · rfl
  · intro clock w hok
    obtain ⟨pts, hpts⟩ := batch_isSome r ρ clock hok
    unfold reporter.send
    rw [hpts]
    rfl

/-- Witness of C16: providers returning one value per quantile, and providers
returning three values and none. -/
theorem send_percentile_reads_witness :
    ((Example.echoHistogram.Percentiles [0.5, 0.75, 0.95, 0.99]).length = 4 ∧
      (pointsOf (Example.reporterOf [] true) MapRange.stored 0 "latency"
        (Metric.Histogram Example.echoHistogram)).isSome = true) ∧
    ((Example.echoTimer.Percentiles [0.5, 0.75, 0.95, 0.99]).length = 4 ∧
      (pointsOf (Example.reporterOf [] true) MapRange.stored 0 "rpc"
        (Metric.Timer Example.echoTimer)).isSome = true) ∧
    ((Example.shortHistogram.Percentiles [0.5, 0.75, 0.95, 0.99]).length = 3 ∧
      pointsOf (Example.reporterOf [] true) MapRange.stored 0 "latency"
        (Metric.Histogram Example.shortHistogram) = none) ∧
    ((Example.shortTimer.Percentiles [0.5, 0.75, 0.95, 0.99]).length = 0 ∧
      pointsOf (Example.reporterOf [] true) MapRange.stored 0 "rpc"
        (Metric.Timer Example.shortTimer) = none) ∧
    ((Example.reporterOf Example.mixedRegistry true).send MapRange.stored
      Example.noonSevenSeconds (WriteAPI.init ℚ true)).isSome = true ∧
    (Example.reporterOf [("latency", Metric.Histogram Example.shortHistogram)] true).send
      MapRange.stored Example.noonSevenSeconds (WriteAPI.init ℚ true) = none :=
  ⟨⟨rfl, ((send_percentile_reads (Example.reporterOf [] true) MapRange.stored 0 "latency"
      Example.echoHistogram Example.echoTimer).1 rfl).2.2.2.2⟩,
    ⟨rfl, ((send_percentile_reads (Example.reporterOf [] true) MapRange.stored 0 "rpc"
      Example.echoHistogram Example.echoTimer).2.1 rfl).2.2.2.2⟩,
    ⟨rfl, ((send_percentile_reads (Example.reporterOf [] true) MapRange.stored 0 "latency"
      Example.shortHistogram Example.shortTimer).2.2.1 (by decide)).2⟩,
    ⟨rfl, ((send_percentile_reads (Example.reporterOf [] true) MapRange.stored 0 "rpc"
      Example.shortHistogram Example.shortTimer).2.2.2.1 (by decide)).2⟩,
    (send_percentile_reads (Example.reporterOf Example.mixedRegistry true) MapRange.stored 0
      "latency" Example.echoHistogram Example.echoTimer).2.2.2.2 Example.noonSevenSeconds
      (WriteAPI.init ℚ true) (by decide),
    rfl⟩

end Reporter
